import Mathlib

/-!
# Revision configuration store (`pkg/reconciler/revision/config/store.go`)

A shallow embedding of the revision reconciler's configuration store.

* Go pointers are addresses (natural numbers) into an explicit heap (`Heap`), a list
  of cells; allocation appends a cell, so an address is never reused.
* A Go `interface{}` holding a pointer is an `Option Nat`: `none` is the nil
  interface, and the dynamic type of `some a` is the kind of the cell at `a`.
* A Go panic is the result `none` of an `Option`-valued function.
* The six section types, their names and their parsers live in packages outside
  this file's source; they are parameters (`SectionTypes`, `Names`, `Parsers`).
-/

namespace RevisionConfig

/-! ## Data model -/

/-- The six configuration sections aggregated by `Config`. -/
inductive Kind where
  | deployment
  | network
  | observability
  | logging
  | tracing
  | autoscaler
  deriving DecidableEq, Repr

/-- The pointee types of the six fields of `Config` (`deployment.Config`, `network.Config`,
`metrics.ObservabilityConfig`, `pkglogging.Config`, `pkgtracing.Config`, `autoscaler.Config`).
They are declared outside the store's source file and are taken as parameters. -/
structure SectionTypes where
  Deployment : Type
  Network : Type
  Observability : Type
  Logging : Type
  Tracing : Type
  Autoscaler : Type

/-- The Go struct `Config`: six nullable pointers, in declaration order. -/
structure Config where
  Deployment : Option Nat
  Network : Option Nat
  Observability : Option Nat
  Logging : Option Nat
  Tracing : Option Nat
  Autoscaler : Option Nat
  deriving DecidableEq, Repr

/-- The pointer field of a `Config` that belongs to a section. -/
def Config.field (c : Config) : Kind → Option Nat
  | .deployment => c.Deployment
  | .network => c.Network
  | .observability => c.Observability
  | .logging => c.Logging
  | .tracing => c.Tracing
  | .autoscaler => c.Autoscaler

/-- A heap cell: a value of one of the six section types, or a `Config` struct. -/
inductive Obj (S : SectionTypes) where
  | deployment (v : S.Deployment)
  | network (v : S.Network)
  | observability (v : S.Observability)
  | logging (v : S.Logging)
  | tracing (v : S.Tracing)
  | autoscaler (v : S.Autoscaler)
  | config (c : Config)

/-- The section a cell belongs to; a `Config` cell belongs to none. This is the dynamic type
that a type assertion on a pointer to the cell inspects. -/
def Obj.kind {S : SectionTypes} : Obj S → Option Kind
  | .deployment _ => some .deployment
  | .network _ => some .network
  | .observability _ => some .observability
  | .logging _ => some .logging
  | .tracing _ => some .tracing
  | .autoscaler _ => some .autoscaler
  | .config _ => none

/-- The heap: cell `a` is the `a`-th element. -/
abbrev Heap (S : SectionTypes) := List (Obj S)

/-- Allocation of a new cell: its address is the first unused one. -/
def alloc {S : SectionTypes} (h : Heap S) (o : Obj S) : Nat × Heap S :=
  (h.length, h ++ [o])

/-- A Kubernetes `ConfigMap`, reduced to what the store reads: its name and its data. -/
structure ConfigMap where
  name : String
  data : List (String × String)
  deriving DecidableEq, Repr

/-- A Go `map[string]β` as an association list with unique keys. -/
abbrev Map (β : Type) := List (String × β)

/-- Map lookup `m[k]`. -/
def Map.get {β : Type} : Map β → String → Option β
  | [], _ => none
  | (k', v) :: t, k => if k' = k then some v else Map.get t k

/-- Map assignment `m[k] = v`. -/
def Map.set {β : Type} : Map β → String → β → Map β
  | [], k, v => [(k, v)]
  | (k', v') :: t, k, v => if k' = k then (k, v) :: t else (k', v') :: Map.set t k v

/-- A map literal: the entries are assigned in source order. -/
def Map.ofList {β : Type} (es : List (String × β)) : Map β :=
  es.foldl (fun m e => Map.set m e.1 e.2) []

/-- The section names used as keys, all defined outside the store's source file:
`deployment.ConfigName`, `network.ConfigName`, `pkgmetrics.ConfigMapName()`,
`pkglogging.ConfigMapName()`, `pkgtracing.ConfigName`, `autoscaler.ConfigName`. -/
structure Names where
  deployment : String
  network : String
  observability : String
  logging : String
  tracing : String
  autoscaler : String
  deriving DecidableEq, Repr

/-- The name of a section. -/
def Names.of (n : Names) : Kind → String
  | .deployment => n.deployment
  | .network => n.network
  | .observability => n.observability
  | .logging => n.logging
  | .tracing => n.tracing
  | .autoscaler => n.autoscaler

/-- The six names are pairwise different. -/
def Names.Distinct (n : Names) : Prop :=
  [n.deployment, n.network, n.observability, n.logging, n.tracing, n.autoscaler].Nodup

instance (n : Names) : Decidable n.Distinct := by
  unfold Names.Distinct
  infer_instance

/-- The six parsing functions (`deployment.NewConfigFromConfigMap`, ...), defined outside the
store's source file. Each returns a new typed value or an error. -/
structure Parsers (S : SectionTypes) where
  deployment : ConfigMap → Except String S.Deployment
  network : ConfigMap → Except String S.Network
  observability : ConfigMap → Except String S.Observability
  logging : ConfigMap → Except String S.Logging
  tracing : ConfigMap → Except String S.Tracing
  autoscaler : ConfigMap → Except String S.Autoscaler

/-- A registry entry: a parser with its result boxed as an untyped value. -/
abbrev Constructor (S : SectionTypes) := ConfigMap → Except String (Obj S)

/-- The parser of a section, as a registry entry. -/
def Parsers.run {S : SectionTypes} (p : Parsers S) : Kind → Constructor S
  | .deployment => fun cm => (p.deployment cm).map Obj.deployment
  | .network => fun cm => (p.network cm).map Obj.network
  | .observability => fun cm => (p.observability cm).map Obj.observability
  | .logging => fun cm => (p.logging cm).map Obj.logging
  | .tracing => fun cm => (p.tracing cm).map Obj.tracing
  | .autoscaler => fun cm => (p.autoscaler cm).map Obj.autoscaler

/-! ## The untyped store (`configmap.UntypedStore`) -/

/-- Modelled from the spec: `configmap.UntypedStore`, whose source is missing. It holds the
Registry of parsers (read-only after construction), per section name the latest successfully
parsed typed value (absent before the first update), and the observers to run after a store. -/
structure UntypedStore (S : SectionTypes) where
  constructors : Map (Constructor S)
  storages : Map Nat
  onAfterStore : List Nat

/-- The Go struct `Store`, which embeds `*configmap.UntypedStore`. -/
structure Store (S : SectionTypes) extends UntypedStore S

/-- The state of the program: the heap, the store, and the log of observer calls
(observer, section name, value passed). -/
structure World (S : SectionTypes) where
  heap : Heap S
  store : Store S
  calls : List (Nat × String × Nat)

/-- Modelled from the spec: the errors an update reports to its caller (the error types of
`configmap.UntypedStore` are missing): `UnknownSection` and `ParseError{section, cause}`. -/
inductive UpdateError where
  | UnknownSection
  | ParseError (name : String) (cause : String)
  deriving DecidableEq, Repr

/-- Modelled from the spec: `configmap.NewUntypedStore`, whose source is missing. It registers
every entry of the constructor table; no section has a value yet. -/
def NewUntypedStore {S : SectionTypes} (constructors : Map (Constructor S))
    (onAfterStore : List Nat) : UntypedStore S :=
  { constructors := constructors, storages := [], onAfterStore := onAfterStore }

/-- Modelled from the spec: `UntypedStore.UntypedLoad`, whose source is missing. It reads the
currently stored typed value of a section, nil if the section was never updated. -/
def UntypedLoad {S : SectionTypes} (w : World S) (name : String) : Option Nat :=
  Map.get w.store.storages name

/-- Modelled from the spec: `UntypedStore.OnConfigChanged` (the spec's `applyUpdate`), whose
source is missing. It resolves the section's parser and fails with `UnknownSection` if there is
none; on parser failure it fails with `ParseError` and leaves the stored value unchanged; on
success it replaces the section's stored value by the new one and then calls the observers in
registration order with the section name and the new value. -/
def OnConfigChanged {S : SectionTypes} (w : World S) (cm : ConfigMap) :
    World S × Option UpdateError :=
  match Map.get w.store.constructors cm.name with
  | none => (w, some .UnknownSection)
  | some parse =>
    match parse cm with
    | .error e => (w, some (.ParseError cm.name e))
    | .ok v =>
      let r := alloc w.heap v
      ({ heap := r.2,
         store := { w.store with storages := Map.set w.store.storages cm.name r.1 },
         calls := w.calls ++ w.store.onAfterStore.map (fun f => (f, cm.name, r.1)) }, none)

/-! ## `store.go` -/

/-- The constructor table literal of `NewStore`, in source order. -/
def constructorTable {S : SectionTypes} (names : Names) (p : Parsers S) :
    List (String × Constructor S) :=
  [(names.deployment, p.run .deployment),
   (names.network, p.run .network),
   (names.observability, p.run .observability),
   (names.autoscaler, p.run .autoscaler),
   (names.logging, p.run .logging),
   (names.tracing, p.run .tracing)]

/-- `NewStore`: a store over the six constructors. The logger only prints and is left out. -/
def NewStore {S : SectionTypes} (names : Names) (p : Parsers S) (onAfterStore : List Nat) :
    Store S :=
  { toUntypedStore := NewUntypedStore (Map.ofList (constructorTable names p)) onAfterStore }

/-- The unchecked type assertion `v.(*T)` for the section type of `k`: it panics (`none`) on
the nil interface and on a pointer to a cell of another type. -/
def assertKind {S : SectionTypes} (h : Heap S) (k : Kind) (v : Option Nat) : Option Nat :=
  match v with
  | none => none
  | some a =>
    match h[a]? with
    | none => none
    | some o => if o.kind = some k then some a else none

/-- Modelled from the spec: the generated `DeepCopy` of a section type, whose source is
missing. It allocates a new value with the content of the receiver. -/
def DeepCopy {S : SectionTypes} (h : Heap S) (a : Nat) : Option (Nat × Heap S) :=
  match h[a]? with
  | none => none
  | some o => some (alloc h o)

/-- One field initialiser of `Load`: `s.UntypedLoad(name).(*T).DeepCopy()`. -/
def loadSection {S : SectionTypes} (names : Names) (k : Kind) (w : World S) :
    Option (Nat × World S) :=
  match assertKind w.heap k (UntypedLoad w (names.of k)) with
  | none => none
  | some a =>
    match DeepCopy w.heap a with
    | none => none
    | some r => some (r.1, { w with heap := r.2 })

/-- `Store.Load`: the six field initialisers run in source order, then the new `Config` is
allocated and its address returned. -/
def Load {S : SectionTypes} (names : Names) (w : World S) : Option (Nat × World S) :=
  match loadSection names .deployment w with
  | none => none
  | some (d, w1) =>
  match loadSection names .network w1 with
  | none => none
  | some (n, w2) =>
  match loadSection names .observability w2 with
  | none => none
  | some (o, w3) =>
  match loadSection names .logging w3 with
  | none => none
  | some (l, w4) =>
  match loadSection names .tracing w4 with
  | none => none
  | some (t, w5) =>
  match loadSection names .autoscaler w5 with
  | none => none
  | some (a, w6) =>
    let r := alloc w6.heap (Obj.config
      { Deployment := some d, Network := some n, Observability := some o,
        Logging := some l, Tracing := some t, Autoscaler := some a })
    some (r.1, { w6 with heap := r.2 })

/-! ## Contexts -/

/-- Context keys: the package's private `cfgKey{}`, or any key of another type. -/
inductive Key where
  | cfgKey
  | other (k : String)
  deriving DecidableEq, Repr

/-- Values carried by a context: a `*Config` (possibly the nil pointer), or a value of another
type. -/
inductive CtxVal where
  | config (c : Option Nat)
  | other (v : Nat)
  deriving DecidableEq, Repr

/-- A (non-nil) `context.Context`: the chain of `WithValue` entries, innermost first;
`context.Background()` is the empty chain. Deadlines and cancellation play no part here. -/
abbrev Context := List (Key × CtxVal)

/-- `ctx.Value(key)`: the innermost entry for the key, nil if there is none. -/
def Context.Value : Context → Key → Option CtxVal
  | [], _ => none
  | (k', v) :: parent, k => if k' = k then some v else Context.Value parent k

/-- `context.WithValue(parent, key, val)`. -/
def Context.WithValue (parent : Context) (k : Key) (v : CtxVal) : Context :=
  (k, v) :: parent

/-- `FromContext`: `ctx.Value(cfgKey{}).(*Config)`; the unchecked assertion panics (`none`)
unless the value is a `*Config`. -/
def FromContext (ctx : Context) : Option (Option Nat) :=
  match ctx.Value .cfgKey with
  | some (.config c) => some c
  | _ => none

/-- `ToContext`: `context.WithValue(ctx, cfgKey{}, c)`. -/
def ToContext (ctx : Context) (c : Option Nat) : Context :=
  ctx.WithValue .cfgKey (.config c)

/-- `Store.ToContext`: `ToContext(ctx, s.Load())`. -/
def Store.ToContext {S : SectionTypes} (names : Names) (w : World S) (ctx : Context) :
    Option (Context × World S) :=
  match Load names w with
  | none => none
  | some (c, w') => some (RevisionConfig.ToContext ctx (some c), w')

/-! ## Observations -/

/-- The value a `*Config` shows for a section: the cell its field points to. -/
def observe {S : SectionTypes} (h : Heap S) (c : Nat) (k : Kind) : Option (Obj S) :=
  match h[c]? with
  | some (.config cfg) =>
    match cfg.field k with
    | none => none
    | some a => h[a]?
  | _ => none

/-- The typed value the store holds for a name. -/
def stored {S : SectionTypes} (w : World S) (name : String) : Option (Obj S) :=
  match UntypedLoad w name with
  | none => none
  | some a => w.heap[a]?

/-- The value of the right type the store holds for a section, if any: what the field
initialiser of `Load` for that section copies. -/
def typed {S : SectionTypes} (names : Names) (w : World S) (k : Kind) : Option (Obj S) :=
  match stored w (names.of k) with
  | none => none
  | some v => if v.kind = some k then some v else none

/-- What `Load` reports: for each section the value its result shows; `none` if `Load`
panics. -/
def snapshot {S : SectionTypes} (names : Names) (w : World S) :
    Option (Kind → Option (Obj S)) :=
  match Load names w with
  | none => none
  | some (c, w') => some (observe w'.heap c)

/-- An assignment through a pointer: the cell at `a` is overwritten. -/
def write {S : SectionTypes} (w : World S) (a : Nat) (o : Obj S) : World S :=
  { w with heap := w.heap.set a o }

/-- A sequence of assignments through pointers. -/
def mutate {S : SectionTypes} (w : World S) (ws : List (Nat × Obj S)) : World S :=
  ws.foldl (fun w e => write w e.1 e.2) w

/-- The addresses reachable from a `*Config`: the struct itself and the targets of its
fields. -/
def reach {S : SectionTypes} (h : Heap S) (c : Nat) : List Nat :=
  match h[c]? with
  | some (.config cfg) =>
    c :: [cfg.Deployment, cfg.Network, cfg.Observability, cfg.Logging, cfg.Tracing,
      cfg.Autoscaler].filterMap id
  | _ => [c]

/-- A sequence of updates, delivered in order; the errors reported are collected. -/
def applyUpdates {S : SectionTypes} (w : World S) : List ConfigMap → World S × List UpdateError
  | [] => (w, [])
  | cm :: rest =>
    let r := OnConfigChanged w cm
    let r' := applyUpdates r.1 rest
    (r'.1, r.2.toList ++ r'.2)

/-- The most recent bundle for a name in a sequence of updates. -/
def lastFor (name : String) : List ConfigMap → Option ConfigMap
  | [] => none
  | cm :: rest =>
    match lastFor name rest with
    | some x => some x
    | none => if cm.name = name then some cm else none

/-- No stored pointer dangles: every stored pointer is the address of a cell. The memory
safety of Go guarantees this in every state of the program. -/
def WF {S : SectionTypes} (w : World S) : Prop :=
  ∀ e ∈ w.store.storages, e.2 < w.heap.length

instance {S : SectionTypes} (w : World S) : Decidable (WF w) := by
  unfold WF
  infer_instance

/-- The result of a `Load` that copies the six given values. -/
def loadResult {S : SectionTypes} (w : World S) (vd vn vo vl vt va : Obj S) :
    Nat × World S :=
  (w.heap.length + 6,
    { w with heap := w.heap ++ [vd, vn, vo, vl, vt, va,
        Obj.config
          { Deployment := some w.heap.length, Network := some (w.heap.length + 1),
            Observability := some (w.heap.length + 2), Logging := some (w.heap.length + 3),
            Tracing := some (w.heap.length + 4), Autoscaler := some (w.heap.length + 5) }] })

/-- The names `Load` reads, each with the section type its type assertion names, in the order
of the field initialisers of `Load`. -/
def loadTable (names : Names) : List (String × Kind) :=
  [(names.deployment, .deployment),
   (names.network, .network),
   (names.observability, .observability),
   (names.logging, .logging),
   (names.tracing, .tracing),
   (names.autoscaler, .autoscaler)]

/-- A field initialiser `s.UntypedLoad(name).(*T).DeepCopy()` for an arbitrary name and
type. -/
def loadEntry {S : SectionTypes} (e : String × Kind) (w : World S) : Option (Nat × World S) :=
  match assertKind w.heap e.2 (UntypedLoad w e.1) with
  | none => none
  | some a =>
    match DeepCopy w.heap a with
    | none => none
    | some r => some (r.1, { w with heap := r.2 })

/-- A sequence of field initialisers, run in order; a panic of one is a panic of all. -/
def loadEntries {S : SectionTypes} : List (String × Kind) → World S →
    Option (List Nat × World S)
  | [], w => some ([], w)
  | e :: es, w =>
    match loadEntry e w with
    | none => none
    | some (a, w1) =>
      match loadEntries es w1 with
      | none => none
      | some (as, w2) => some (a :: as, w2)

/-- The `Config` literal of `Load` over the results of the field initialisers. -/
def configOf {S : SectionTypes} (r : List Nat × World S) : Option (Nat × World S) :=
  match r with
  | ([d, n, o, l, t, a], w6) =>
    some ((alloc w6.heap (Obj.config
      { Deployment := some d, Network := some n, Observability := some o,
        Logging := some l, Tracing := some t, Autoscaler := some a })).1,
      { w6 with heap := (alloc w6.heap (Obj.config
        { Deployment := some d, Network := some n, Observability := some o,
          Logging := some l, Tracing := some t, Autoscaler := some a })).2 })
  | _ => none

/-! ## `Load` overlapped by updates -/

/-- Modelled from the spec: an execution of `Load` that overlaps updates. The spec makes the
replacement and the read of a section's slot atomic and never mutates a stored value in
place, so an overlapping update takes effect at one point of the execution of `Load`: before
its first slot read, between two slot reads, or after the last one. `sched k` lists the
updates that take effect after the previous slot read and before the read of section `k`, in
order; `after` lists those that take effect after the last read and before `Load` returns.
The text is that of `Load` with the updates put in. -/
def LoadI {S : SectionTypes} (names : Names) (sched : Kind → List ConfigMap)
    (after : List ConfigMap) (w : World S) : Option (Nat × World S) :=
  match loadSection names .deployment (applyUpdates w (sched .deployment)).1 with
  | none => none
  | some (d, w1) =>
  match loadSection names .network (applyUpdates w1 (sched .network)).1 with
  | none => none
  | some (n, w2) =>
  match loadSection names .observability (applyUpdates w2 (sched .observability)).1 with
  | none => none
  | some (o, w3) =>
  match loadSection names .logging (applyUpdates w3 (sched .logging)).1 with
  | none => none
  | some (l, w4) =>
  match loadSection names .tracing (applyUpdates w4 (sched .tracing)).1 with
  | none => none
  | some (t, w5) =>
  match loadSection names .autoscaler (applyUpdates w5 (sched .autoscaler)).1 with
  | none => none
  | some (a, w6) =>
    let r := alloc (applyUpdates w6 after).1.heap (Obj.config
      { Deployment := some d, Network := some n, Observability := some o,
        Logging := some l, Tracing := some t, Autoscaler := some a })
    some (r.1, { (applyUpdates w6 after).1 with heap := r.2 })

/-- The updates that have taken effect when an overlapped `Load` reads the slot of a
section. -/
def completedBefore (sched : Kind → List ConfigMap) : Kind → List ConfigMap
  | .deployment => sched .deployment
  | .network => sched .deployment ++ sched .network
  | .observability => sched .deployment ++ sched .network ++ sched .observability
  | .logging => sched .deployment ++ sched .network ++ sched .observability ++ sched .logging
  | .tracing =>
    sched .deployment ++ sched .network ++ sched .observability ++ sched .logging ++
      sched .tracing
  | .autoscaler =>
    sched .deployment ++ sched .network ++ sched .observability ++ sched .logging ++
      sched .tracing ++ sched .autoscaler

/-- All the updates that overlap an execution of `Load`, in the order they take effect. -/
def overlapping (sched : Kind → List ConfigMap) (after : List ConfigMap) : List ConfigMap :=
  completedBefore sched .autoscaler ++ after

/-- Two states with the same registry that hold the same typed value for every name. -/
def Sim {S : SectionTypes} (w h : World S) : Prop :=
  w.store.constructors = h.store.constructors ∧ ∀ name, stored w name = stored h name

/-- Every cell of the first state is a cell of the second, with the same content. -/
def Ext {S : SectionTypes} (w w1 : World S) : Prop :=
  ∀ (a : Nat) (v : Obj S), w.heap[a]? = some v → w1.heap[a]? = some v

/-! ## A concrete instance

A small instance of the parameters, on which the definitions can be evaluated: every section
value is a single string read from one key of the bundle. -/

/-- Section types of the instance: every section value is one string. -/
def demoTypes : SectionTypes :=
  { Deployment := String, Network := String, Observability := String,
    Logging := String, Tracing := String, Autoscaler := String }

/-- Section names of the instance. -/
def demoNames : Names :=
  { deployment := "config-deployment", network := "config-network",
    observability := "config-observability", logging := "config-logging",
    tracing := "config-tracing", autoscaler := "config-autoscaler" }

/-- A parser of the instance: it reads one key and fails if the key is missing. -/
def demoField (key : String) (cm : ConfigMap) : Except String String :=
  match cm.data.lookup key with
  | some v => .ok v
  | none => .error key

/-- Parsers of the instance. -/
def demoParsers : Parsers demoTypes :=
  { deployment := demoField "queueSidecarImage",
    network := demoField "outboundIPRanges",
    observability := demoField "backend",
    logging := demoField "level",
    tracing := demoField "enable",
    autoscaler := demoField "max-scale-up-rate" }

/-- A new store of the instance with one observer, on an empty heap. -/
def demoNew : World demoTypes :=
  { heap := [], store := NewStore demoNames demoParsers [7], calls := [] }

/-- Updates of the instance: all six sections, the network section twice. -/
def demoUpdates : List ConfigMap :=
  [{ name := "config-deployment", data := [("queueSidecarImage", "queue:v1")] },
   { name := "config-network", data := [("outboundIPRanges", "10.0.0.0/8")] },
   { name := "config-observability", data := [("backend", "prometheus")] },
   { name := "config-logging", data := [("level", "debug")] },
   { name := "config-tracing", data := [("enable", "false")] },
   { name := "config-autoscaler", data := [("max-scale-up-rate", "10")] },
   { name := "config-network", data := [("outboundIPRanges", "*")] }]

/-- The store of the instance after the updates. -/
def demoWorld : World demoTypes :=
  (applyUpdates demoNew demoUpdates).1

/-- The store of the instance after the first five updates: the autoscaler section was never
updated. -/
def demoPartial : World demoTypes :=
  (applyUpdates demoNew (demoUpdates.take 5)).1

/-- A malformed bundle for the network section of the instance. -/
def demoBad : ConfigMap :=
  { name := "config-network", data := [] }

/-- A schedule of the instance: the network section is updated between the read of the
deployment slot and the read of the network slot, the deployment section after its slot was
read. -/
def demoSched : Kind → List ConfigMap
  | .network =>
    [{ name := "config-network", data := [("outboundIPRanges", "192.168.0.0/16")] },
     { name := "config-deployment", data := [("queueSidecarImage", "queue:v2")] }]
  | _ => []

end RevisionConfig

/-!
# Service test helpers (`test/v1alpha1/service.go`)

`CheckServiceState` and `IsServiceNotReady`. The `Service` type, its condition constants and
its method `GetCondition` are declared outside this source file; the helpers are embedded
over a record of the fields they read and take the missing method and constant as a
parameter (`API`). The calls a helper makes are recorded in a trace.
-/

namespace ServiceTest

/-- `corev1.ConditionStatus`, a string type. -/
abbrev ConditionStatus := String

/-- `corev1.ConditionTrue`. -/
def ConditionTrue : ConditionStatus := "True"

/-- `corev1.ConditionFalse`. -/
def ConditionFalse : ConditionStatus := "False"

/-- `corev1.ConditionUnknown`. -/
def ConditionUnknown : ConditionStatus := "Unknown"

/-- A status condition, reduced to its fields `Type` and `Status`. -/
structure Condition where
  Type_ : String
  Status : ConditionStatus
  deriving DecidableEq, Repr

/-- `v1alpha1.ServiceStatus`, reduced to the observed generation and the conditions. -/
structure ServiceStatus where
  ObservedGeneration : Int
  Conditions : List Condition
  deriving DecidableEq, Repr

/-- `v1alpha1.Service`, reduced to its generation and its status. -/
structure Service where
  Generation : Int
  Status : ServiceStatus
  deriving DecidableEq, Repr

/-- The parts of package `v1alpha1` the helpers use and whose source is missing: the constant
`ServiceConditionReady` and the method `ServiceStatus.GetCondition`, which returns a pointer
to a condition or nil. -/
structure API where
  ServiceConditionReady : String
  GetCondition : ServiceStatus → String → Option Condition

/-- Go `error` values: an error made by the client or by the predicate, or the error
`fmt.Errorf("service %q is not in desired state, got: %+v", name, s)`, kept with its two
arguments. -/
inductive Error where
  | external (msg : String)
  | notInDesiredState (name : String) (s : Service)
  deriving DecidableEq, Repr

/-- The service client: `Get(name, metav1.GetOptions{})` returns a service or an error. -/
structure ServiceInterface where
  Get : String → Except Error Service

/-- `test.ServingAlphaClients`, reduced to its `Services` client. -/
structure ServingAlphaClients where
  Services : ServiceInterface

/-- A call made by a helper: a `Get` of the client, or a call of the predicate. -/
inductive Call where
  | Get (name : String)
  | inState (s : Service)
  deriving DecidableEq, Repr

/-- Whether a call is a `Get`. -/
def Call.isGet : Call → Bool
  | .Get _ => true
  | .inState _ => false

/-- Whether a call is a call of the predicate. -/
def Call.isInState : Call → Bool
  | .Get _ => false
  | .inState _ => true

/-- `CheckServiceState`: the error returned (`none` is nil) and the calls made, in order. The
predicate returns a pair `(done, err)`. -/
def CheckServiceState (client : ServingAlphaClients) (name : String)
    (inState : Service → Bool × Option Error) : Option Error × List Call :=
  match client.Services.Get name with
  | .error err => (some err, [.Get name])
  | .ok s =>
    match inState s with
    | (_, some err) => (some err, [.Get name, .inState s])
    | (false, none) => (some (.notInDesiredState name s), [.Get name, .inState s])
    | (true, none) => (none, [.Get name, .inState s])

/-- `IsServiceNotReady`: the pair `(bool, error)` it returns; `&&` evaluates `result.Status`
only when `result` is not nil. -/
def IsServiceNotReady (api : API) (s : Service) : Bool × Option Error :=
  let result := api.GetCondition s.Status api.ServiceConditionReady
  (decide (s.Generation = s.Status.ObservedGeneration) &&
    (match result with
     | none => false
     | some c => decide (c.Status = ConditionFalse)), none)

/-- An instance of the missing parts, for evaluation: the Ready condition type is `"Ready"`
and the condition of a type is the first one in the list with that type. -/
def demoAPI : API :=
  { ServiceConditionReady := "Ready",
    GetCondition := fun st t => st.Conditions.find? (fun c => decide (c.Type_ = t)) }

/-- A service whose Ready condition is False at the current generation. -/
def demoNotReady : Service :=
  { Generation := 2,
    Status := { ObservedGeneration := 2,
                Conditions := [{ Type_ := "RoutesReady", Status := "True" },
                               { Type_ := "Ready", Status := "False" }] } }

/-- A client that knows the service `"hello"` only. -/
def demoClient : ServingAlphaClients :=
  { Services := { Get := fun name =>
      if name = "hello" then .ok demoNotReady else .error (.external "not found") } }

end ServiceTest

namespace RevisionConfig

/-! ## Lemmas -/

theorem Map.get_set_self {β : Type} (m : Map β) (k : String) (v : β) :
    Map.get (Map.set m k v) k = some v := by
  induction m with
  | nil => simp [Map.set, Map.get]
  | cons e t ih =>
    obtain ⟨k', v'⟩ := e
    by_cases h : k' = k
    · simp [Map.set, Map.get, h]
    · simp [Map.set, Map.get, h, ih]

theorem Map.get_set_other {β : Type} (m : Map β) (k k' : String) (v : β) (h : k' ≠ k) :
    Map.get (Map.set m k v) k' = Map.get m k' := by
  induction m with
  | nil => simp [Map.set, Map.get, Ne.symm h]
  | cons e t ih =>
    obtain ⟨k0, v0⟩ := e
    by_cases h0 : k0 = k
    · subst h0
      simp [Map.set, Map.get, Ne.symm h]
    · by_cases h1 : k0 = k'
      · subst h1
        simp [Map.set, Map.get, h0]
      · simp [Map.set, Map.get, h0, h1, ih]

theorem heap_append_kind {S : SectionTypes} (h vs : Heap S) (a : Nat) (o : Obj S) (k : Kind)
    (hvs : ∀ v ∈ vs, v.kind ≠ some k) (ho : (h ++ vs)[a]? = some o) (hk : o.kind = some k) :
    h[a]? = some o := by
  by_cases ha : a < h.length
  · rwa [List.getElem?_append_left ha] at ho
  · rw [List.getElem?_append_right (Nat.le_of_not_lt ha)] at ho
    exact absurd hk (hvs o (List.getElem?_mem ho))

theorem heap_append_at {S : SectionTypes} (h l : Heap S) (i a : Nat)
    (ha : a = h.length + i) : (h ++ l)[a]? = l[i]? := by
  subst ha
  rw [List.getElem?_append_right (by omega)]
  simp

theorem typed_kind {S : SectionTypes} (names : Names) (w : World S) (k : Kind) (v : Obj S)
    (h : typed names w k = some v) : v.kind = some k := by
  unfold typed at h
  cases hs : stored w (names.of k) with
  | none => simp [hs] at h
  | some v' =>
    simp only [hs] at h
    by_cases hk : v'.kind = some k
    · simp only [hk, if_true, Option.some.injEq] at h
      rw [← h]; exact hk
    · simp [hk] at h

theorem typed_stored {S : SectionTypes} (names : Names) (w : World S) (k : Kind) (v : Obj S)
    (h : typed names w k = some v) : stored w (names.of k) = some v := by
  unfold typed at h
  cases hs : stored w (names.of k) with
  | none => simp [hs] at h
  | some v' =>
    simp only [hs] at h
    by_cases hk : v'.kind = some k
    · simp only [hk, if_true, Option.some.injEq] at h
      rw [← h]
    · simp [hk] at h

theorem loadSection_append {S : SectionTypes} (names : Names) (k : Kind) (h : Heap S)
    (st : Store S) (cl : List (Nat × String × Nat))
    (vs : List (Obj S)) (hvs : ∀ v ∈ vs, v.kind ≠ some k) :
    loadSection names k ⟨h ++ vs, st, cl⟩ =
      (typed names ⟨h, st, cl⟩ k).map
        (fun v => (h.length + vs.length, ⟨h ++ vs ++ [v], st, cl⟩)) := by
  unfold loadSection typed stored UntypedLoad assertKind DeepCopy alloc
  simp only []
  cases hget : Map.get st.storages (names.of k) with
  | none => simp
  | some a =>
    simp only []
    cases ho : (h ++ vs)[a]? with
    | none =>
      have : h[a]? = none := by
        rw [List.getElem?_eq_none_iff] at ho ⊢
        simp at ho
        omega
      simp [this]
    | some o =>
      by_cases hk : o.kind = some k
      · have h1 := heap_append_kind h vs a o k hvs ho hk
        simp [h1, hk, ho]
      · simp only [hk, if_false]
        cases h1 : h[a]? with
        | none => simp
        | some o' =>
          have : a < h.length := by
            by_contra hlt
            rw [List.getElem?_eq_none (Nat.le_of_not_lt hlt)] at h1
            cases h1
          rw [List.getElem?_append_left this, h1] at ho
          cases ho
          simp [hk]

theorem Load_eq {S : SectionTypes} (names : Names) (w : World S) :
    Load names w =
      (typed names w .deployment).bind fun vd =>
      (typed names w .network).bind fun vn =>
      (typed names w .observability).bind fun vo =>
      (typed names w .logging).bind fun vl =>
      (typed names w .tracing).bind fun vt =>
      (typed names w .autoscaler).bind fun va =>
      some (loadResult w vd vn vo vl vt va) := by
  obtain ⟨h, st, cl⟩ := w
  unfold Load
  have e1 := loadSection_append names .deployment h st cl [] (by simp)
  simp only [List.append_nil, List.length_nil, Nat.add_zero] at e1
  rw [e1]
  cases hd : typed names ⟨h, st, cl⟩ .deployment with
  | none => simp
  | some vd =>
  have kd := typed_kind names _ _ _ hd
  have e2 := loadSection_append names .network h st cl [vd] (by simp [kd])
  simp only [Option.map_some', e2]
  cases hn : typed names ⟨h, st, cl⟩ .network with
  | none => simp
  | some vn =>
  have kn := typed_kind names _ _ _ hn
  have e3 := loadSection_append names .observability h st cl [vd, vn] (by simp [kd, kn])
  simp only [Option.map_some', List.append_assoc, List.singleton_append, List.cons_append,
    List.nil_append, e3]
  cases ho : typed names ⟨h, st, cl⟩ .observability with
  | none => simp
  | some vo =>
  have ko := typed_kind names _ _ _ ho
  have e4 := loadSection_append names .logging h st cl [vd, vn, vo] (by simp [kd, kn, ko])
  simp only [Option.map_some', List.append_assoc, List.singleton_append, List.cons_append,
    List.nil_append, e4]
  cases hl : typed names ⟨h, st, cl⟩ .logging with
  | none => simp
  | some vl =>
  have kl := typed_kind names _ _ _ hl
  have e5 := loadSection_append names .tracing h st cl [vd, vn, vo, vl]
    (by simp [kd, kn, ko, kl])
  simp only [Option.map_some', List.append_assoc, List.singleton_append, List.cons_append,
    List.nil_append, e5]
  cases ht : typed names ⟨h, st, cl⟩ .tracing with
  | none => simp
  | some vt =>
  have kt := typed_kind names _ _ _ ht
  have e6 := loadSection_append names .autoscaler h st cl [vd, vn, vo, vl, vt]
    (by simp [kd, kn, ko, kl, kt])
  simp only [Option.map_some', List.append_assoc, List.singleton_append, List.cons_append,
    List.nil_append, e6]
  cases ha : typed names ⟨h, st, cl⟩ .autoscaler with
  | none => simp
  | some va =>
  simp [loadResult, alloc]

theorem Load_of_typed {S : SectionTypes} (names : Names) (w : World S) (f : Kind → Obj S)
    (hf : ∀ k, typed names w k = some (f k)) :
    Load names w = some (loadResult w (f .deployment) (f .network) (f .observability)
      (f .logging) (f .tracing) (f .autoscaler)) := by
  simp [Load_eq, hf]

theorem Load_none_of_typed {S : SectionTypes} (names : Names) (w : World S) (k : Kind)
    (hk : typed names w k = none) : Load names w = none := by
  rw [Load_eq]
  cases k <;> simp [hk]

theorem typed_of_Load {S : SectionTypes} (names : Names) (w : World S) (r : Nat × World S)
    (h : Load names w = some r) :
    ∃ f : Kind → Obj S, (∀ k, typed names w k = some (f k)) ∧
      r = loadResult w (f .deployment) (f .network) (f .observability)
        (f .logging) (f .tracing) (f .autoscaler) := by
  have hall : ∀ k, ∃ v, typed names w k = some v := by
    intro k
    cases hk : typed names w k with
    | none => rw [Load_none_of_typed names w k hk] at h; cases h
    | some v => exact ⟨v, rfl⟩
  choose f hf using hall
  refine ⟨f, hf, ?_⟩
  rw [Load_of_typed names w f hf] at h
  exact (Option.some.inj h).symm

theorem observe_loadResult {S : SectionTypes} (w : World S) (f : Kind → Obj S) (k : Kind) :
    observe (loadResult w (f .deployment) (f .network) (f .observability)
        (f .logging) (f .tracing) (f .autoscaler)).2.heap
      (loadResult w (f .deployment) (f .network) (f .observability)
        (f .logging) (f .tracing) (f .autoscaler)).1 k = some (f k) := by
  unfold observe loadResult
  simp only []
  rw [heap_append_at _ _ 6 _ rfl]
  cases k
  all_goals simp only [List.getElem?_cons_succ, List.getElem?_cons_zero, Config.field]
  · exact (heap_append_at _ _ 0 _ rfl).trans rfl
  · rw [heap_append_at _ _ 1 _ rfl]; rfl
  · rw [heap_append_at _ _ 2 _ rfl]; rfl
  · rw [heap_append_at _ _ 3 _ rfl]; rfl
  · rw [heap_append_at _ _ 4 _ rfl]; rfl
  · rw [heap_append_at _ _ 5 _ rfl]; rfl

theorem snapshot_of_typed {S : SectionTypes} (names : Names) (w : World S) (f : Kind → Obj S)
    (hf : ∀ k, typed names w k = some (f k)) :
    snapshot names w = some (fun k => some (f k)) := by
  unfold snapshot
  rw [Load_of_typed names w f hf]
  simp only [Option.some.injEq]
  funext k
  exact observe_loadResult w f k

theorem snapshot_none_of_typed {S : SectionTypes} (names : Names) (w : World S) (k : Kind)
    (hk : typed names w k = none) : snapshot names w = none := by
  unfold snapshot
  rw [Load_none_of_typed names w k hk]

theorem snapshot_congr {S : SectionTypes} (names : Names) (w1 w2 : World S)
    (h : ∀ k, typed names w1 k = typed names w2 k) :
    snapshot names w1 = snapshot names w2 := by
  by_cases hall : ∀ k, ∃ v, typed names w1 k = some v
  · choose f hf using hall
    rw [snapshot_of_typed names w1 f hf,
      snapshot_of_typed names w2 f (fun k => (h k).symm.trans (hf k))]
  · push_neg at hall
    obtain ⟨k, hk⟩ := hall
    have h1 : typed names w1 k = none := by
      cases ht : typed names w1 k with
      | none => rfl
      | some v => exact absurd ht (hk v)
    rw [snapshot_none_of_typed names w1 k h1,
      snapshot_none_of_typed names w2 k ((h k).symm.trans h1)]

theorem typed_congr {S : SectionTypes} (names : Names) (w1 w2 : World S) (k : Kind)
    (h : stored w1 (names.of k) = stored w2 (names.of k)) :
    typed names w1 k = typed names w2 k := by
  unfold typed
  rw [h]

theorem snapshot_field {S : SectionTypes} (names : Names) (w : World S)
    (f : Kind → Option (Obj S)) (h : snapshot names w = some f) (k : Kind) :
    f k = typed names w k ∧ f k = stored w (names.of k) ∧ (f k).isSome := by
  unfold snapshot at h
  cases hl : Load names w with
  | none => simp [hl] at h
  | some r =>
    obtain ⟨g, hg, hr⟩ := typed_of_Load names w r hl
    have h2 := snapshot_of_typed names w g hg
    unfold snapshot at h2
    rw [h2] at h
    have hf : f = fun k => some (g k) := (Option.some.inj h).symm
    subst hf
    exact ⟨(hg k).symm, (typed_stored names w k _ (hg k)).symm, rfl⟩

theorem mutate_store {S : SectionTypes} (w : World S) (ws : List (Nat × Obj S)) :
    (mutate w ws).store = w.store ∧ (mutate w ws).calls = w.calls ∧
      (mutate w ws).heap.length = w.heap.length := by
  induction ws generalizing w with
  | nil => simp [mutate]
  | cons e t ih =>
    have h := ih (write w e.1 e.2)
    simp only [mutate, List.foldl_cons] at h ⊢
    simpa [write] using h

theorem mutate_heap {S : SectionTypes} (w : World S) (ws : List (Nat × Obj S)) (a : Nat)
    (ha : ∀ e ∈ ws, e.1 ≠ a) : (mutate w ws).heap[a]? = w.heap[a]? := by
  induction ws generalizing w with
  | nil => simp [mutate]
  | cons e t ih =>
    have h := ih (write w e.1 e.2) (fun e' he' => ha e' (List.mem_cons_of_mem _ he'))
    simp only [mutate, List.foldl_cons] at h ⊢
    rw [h]
    simp only [write]
    exact List.getElem?_set_ne (ha e (List.mem_cons_self _ _))

theorem reach_loadResult {S : SectionTypes} (w : World S) (vd vn vo vl vt va : Obj S) :
    reach (loadResult w vd vn vo vl vt va).2.heap (loadResult w vd vn vo vl vt va).1 =
      [w.heap.length + 6, w.heap.length, w.heap.length + 1, w.heap.length + 2,
        w.heap.length + 3, w.heap.length + 4, w.heap.length + 5] := by
  unfold reach loadResult
  simp only []
  rw [heap_append_at _ _ 6 _ rfl]
  rfl

theorem stored_some {S : SectionTypes} (w : World S) (name : String) (v : Obj S)
    (h : stored w name = some v) :
    ∃ a, UntypedLoad w name = some a ∧ w.heap[a]? = some v ∧ a < w.heap.length := by
  unfold stored at h
  cases hu : UntypedLoad w name with
  | none => simp [hu] at h
  | some a =>
    simp only [hu] at h
    refine ⟨a, rfl, h, ?_⟩
    by_contra hlt
    rw [List.getElem?_eq_none (Nat.le_of_not_lt hlt)] at h
    cases h

theorem stored_transfer {S : SectionTypes} (w w' : World S) (name : String) (v : Obj S)
    (hs : Map.get w'.store.storages name = Map.get w.store.storages name)
    (hh : ∀ a, a < w.heap.length → w'.heap[a]? = w.heap[a]?)
    (hv : stored w name = some v) : stored w' name = some v := by
  obtain ⟨a, hu, ha, hlt⟩ := stored_some w name v hv
  unfold stored UntypedLoad at *
  rw [hs, hu]
  simp only []
  rw [hh a hlt, ha]

theorem loadResult_heap {S : SectionTypes} (w : World S) (vd vn vo vl vt va : Obj S)
    (a : Nat) (ha : a < w.heap.length) :
    (loadResult w vd vn vo vl vt va).2.heap[a]? = w.heap[a]? := by
  unfold loadResult
  exact List.getElem?_append_left ha

theorem Map.get_foldl_set {β : Type} (es : List (String × β)) (m0 : Map β) (k : String) :
    Map.get (es.foldl (fun m e => Map.set m e.1 e.2) m0) k =
      es.foldl (fun acc e => if e.1 = k then some e.2 else acc) (Map.get m0 k) := by
  induction es generalizing m0 with
  | nil => rfl
  | cons e t ih =>
    simp only [List.foldl_cons]
    rw [ih]
    by_cases h : e.1 = k
    · subst h
      simp [Map.get_set_self]
    · rw [Map.get_set_other _ _ _ _ (Ne.symm h)]
      simp [h]

theorem names_of_eq_iff (names : Names) (hd : names.Distinct) (j k : Kind) :
    names.of j = names.of k ↔ j = k := by
  unfold Names.Distinct at hd
  simp only [List.nodup_cons, List.mem_cons, List.mem_singleton, List.not_mem_nil,
    not_or, or_false, List.nodup_nil, not_false_eq_true, and_true] at hd
  obtain ⟨⟨h12, h13, h14, h15, h16⟩, ⟨h23, h24, h25, h26⟩, ⟨h34, h35, h36⟩,
    ⟨h45, h46⟩, h56⟩ := hd
  constructor
  · intro h
    cases j <;> cases k <;> simp only [Names.of] at h <;>
      first | rfl | exact absurd h ‹_› | exact absurd h.symm ‹_›
  · intro h
    rw [h]

theorem constructorTable_of {S : SectionTypes} (names : Names) (p : Parsers S) :
    constructorTable names p =
      [(names.of .deployment, p.run .deployment), (names.of .network, p.run .network),
       (names.of .observability, p.run .observability),
       (names.of .autoscaler, p.run .autoscaler), (names.of .logging, p.run .logging),
       (names.of .tracing, p.run .tracing)] := rfl

theorem registry_get {S : SectionTypes} (names : Names) (p : Parsers S)
    (hd : names.Distinct) (k : Kind) :
    Map.get (Map.ofList (constructorTable names p)) (names.of k) = some (p.run k) := by
  rw [constructorTable_of]
  unfold Map.ofList
  rw [Map.get_foldl_set]
  simp only [List.foldl_cons, List.foldl_nil, names_of_eq_iff names hd, Map.get]
  cases k <;> simp

theorem registry_get_none {S : SectionTypes} (names : Names) (p : Parsers S)
    (name : String) (h : ∀ k, name ≠ names.of k) :
    Map.get (Map.ofList (constructorTable names p)) name = none := by
  rw [constructorTable_of]
  unfold Map.ofList
  rw [Map.get_foldl_set]
  simp only [List.foldl_cons, List.foldl_nil, Map.get, fun k => Ne.symm (h k), if_false]

theorem OnConfigChanged_ok {S : SectionTypes} (w : World S) (cm : ConfigMap)
    (parse : Constructor S) (v : Obj S)
    (h1 : Map.get w.store.constructors cm.name = some parse) (h2 : parse cm = .ok v) :
    OnConfigChanged w cm =
      ({ heap := w.heap ++ [v],
         store := { w.store with
           storages := Map.set w.store.storages cm.name w.heap.length },
         calls := w.calls ++ w.store.onAfterStore.map (fun f => (f, cm.name, w.heap.length)) },
       none) := by
  simp [OnConfigChanged, alloc, h1, h2]

theorem OnConfigChanged_error {S : SectionTypes} (w : World S) (cm : ConfigMap)
    (parse : Constructor S) (e : String)
    (h1 : Map.get w.store.constructors cm.name = some parse) (h2 : parse cm = .error e) :
    OnConfigChanged w cm = (w, some (.ParseError cm.name e)) := by
  simp [OnConfigChanged, h1, h2]

theorem OnConfigChanged_unknown {S : SectionTypes} (w : World S) (cm : ConfigMap)
    (h1 : Map.get w.store.constructors cm.name = none) :
    OnConfigChanged w cm = (w, some .UnknownSection) := by
  simp [OnConfigChanged, h1]

theorem OnConfigChanged_cases {S : SectionTypes} (w : World S) (cm : ConfigMap) :
    (∃ e, OnConfigChanged w cm = (w, some e)) ∨
    (∃ parse v, Map.get w.store.constructors cm.name = some parse ∧ parse cm = .ok v ∧
      OnConfigChanged w cm =
        ({ heap := w.heap ++ [v],
           store := { w.store with
             storages := Map.set w.store.storages cm.name w.heap.length },
           calls := w.calls ++
             w.store.onAfterStore.map (fun f => (f, cm.name, w.heap.length)) }, none)) := by
  cases h1 : Map.get w.store.constructors cm.name with
  | none => exact Or.inl ⟨_, OnConfigChanged_unknown w cm h1⟩
  | some parse =>
    cases h2 : parse cm with
    | error e => exact Or.inl ⟨_, OnConfigChanged_error w cm parse e h1 h2⟩
    | ok v => exact Or.inr ⟨parse, v, rfl, h2, OnConfigChanged_ok w cm parse v h1 h2⟩

theorem OnConfigChanged_constructors {S : SectionTypes} (w : World S) (cm : ConfigMap) :
    (OnConfigChanged w cm).1.store.constructors = w.store.constructors := by
  rcases OnConfigChanged_cases w cm with ⟨e, h⟩ | ⟨parse, v, _, _, h⟩ <;> rw [h]

theorem Map.get_mem {β : Type} (m : Map β) (k : String) (v : β)
    (h : Map.get m k = some v) : (k, v) ∈ m := by
  induction m with
  | nil => simp [Map.get] at h
  | cons e t ih =>
    obtain ⟨k', v'⟩ := e
    by_cases hk : k' = k
    · simp only [Map.get, hk, if_true, Option.some.injEq] at h
      subst hk
      subst h
      exact List.mem_cons_self _ _
    · simp only [Map.get, hk, if_false] at h
      exact List.mem_cons_of_mem _ (ih h)

theorem Map.mem_set {β : Type} (m : Map β) (k : String) (v : β) (e : String × β)
    (h : e ∈ Map.set m k v) : e ∈ m ∨ e = (k, v) := by
  induction m with
  | nil =>
    simp only [Map.set, List.mem_singleton] at h
    exact Or.inr h
  | cons e' t ih =>
    obtain ⟨k', v'⟩ := e'
    by_cases hk : k' = k
    · simp only [Map.set, hk, if_true, List.mem_cons] at h
      rcases h with h | h
      · exact Or.inr h
      · exact Or.inl (List.mem_cons_of_mem _ h)
    · simp only [Map.set, hk, if_false, List.mem_cons] at h
      rcases h with h | h
      · exact Or.inl (h ▸ List.mem_cons_self _ _)
      · rcases ih h with h' | h'
        · exact Or.inl (List.mem_cons_of_mem _ h')
        · exact Or.inr h'

theorem WF_get {S : SectionTypes} (w : World S) (hw : WF w) (name : String) (a : Nat)
    (ha : UntypedLoad w name = some a) : a < w.heap.length :=
  hw (name, a) (Map.get_mem _ _ _ ha)

theorem OnConfigChanged_WF {S : SectionTypes} (w : World S) (cm : ConfigMap) (hw : WF w) :
    WF (OnConfigChanged w cm).1 := by
  rcases OnConfigChanged_cases w cm with ⟨e, h⟩ | ⟨parse, v, _, _, h⟩ <;> rw [h]
  · exact hw
  · intro e he
    simp only [List.length_append, List.length_singleton]
    rcases Map.mem_set _ _ _ _ he with h' | h'
    · have := hw e h'
      omega
    · subst h'
      simp

theorem OnConfigChanged_stored_other {S : SectionTypes} (w : World S) (cm : ConfigMap)
    (hw : WF w) (name : String) (hn : name ≠ cm.name) :
    stored (OnConfigChanged w cm).1 name = stored w name := by
  rcases OnConfigChanged_cases w cm with ⟨e, h⟩ | ⟨parse, v, _, _, h⟩ <;> rw [h]
  simp only [stored, UntypedLoad]
  rw [Map.get_set_other _ _ _ _ hn]
  cases ha : Map.get w.store.storages name with
  | none => rfl
  | some a => exact List.getElem?_append_left (WF_get w hw name a ha)

theorem OnConfigChanged_stored_self {S : SectionTypes} (w : World S) (cm : ConfigMap)
    (parse : Constructor S) (v : Obj S)
    (h1 : Map.get w.store.constructors cm.name = some parse) (h2 : parse cm = .ok v) :
    stored (OnConfigChanged w cm).1 cm.name = some v := by
  rw [OnConfigChanged_ok w cm parse v h1 h2]
  simp only [stored, UntypedLoad]
  rw [Map.get_set_self]
  exact (heap_append_at _ _ 0 _ rfl).trans rfl

theorem applyUpdates_stored {S : SectionTypes} (cms : List ConfigMap) (w : World S)
    (hw : WF w) (hok : (applyUpdates w cms).2 = []) (name : String) :
    (∀ cm, lastFor name cms = some cm →
      ∃ parse v, Map.get w.store.constructors name = some parse ∧ parse cm = .ok v ∧
        stored (applyUpdates w cms).1 name = some v) ∧
    (lastFor name cms = none → stored (applyUpdates w cms).1 name = stored w name) := by
  induction cms generalizing w with
  | nil => simp [lastFor, applyUpdates]
  | cons cm rest ih =>
    simp only [applyUpdates, List.append_eq_nil] at hok ⊢
    obtain ⟨hok1, hok2⟩ := hok
    have hnone : (OnConfigChanged w cm).2 = none := by
      cases h : (OnConfigChanged w cm).2 with
      | none => rfl
      | some e => rw [h] at hok1; simp at hok1
    have hih := ih (OnConfigChanged w cm).1 (OnConfigChanged_WF w cm hw) hok2
    rw [OnConfigChanged_constructors] at hih
    obtain ⟨ih1, ih2⟩ := hih
    rcases OnConfigChanged_cases w cm with ⟨e, h⟩ | ⟨parse, v, h1, h2, _⟩
    · rw [h] at hnone; cases hnone
    · constructor
      · intro cm' hl
        simp only [lastFor] at hl
        cases hr : lastFor name rest with
        | some x =>
          rw [hr] at hl
          simp only [Option.some.injEq] at hl
          subst hl
          exact ih1 x hr
        | none =>
          rw [hr] at hl
          by_cases hn : cm.name = name
          · simp only [hn, if_true, Option.some.injEq] at hl
            subst hl
            subst hn
            refine ⟨parse, v, h1, h2, ?_⟩
            rw [ih2 hr]
            exact OnConfigChanged_stored_self w cm parse v h1 h2
          · simp [hn] at hl
      · intro hl
        simp only [lastFor] at hl
        cases hr : lastFor name rest with
        | some x => rw [hr] at hl; simp at hl
        | none =>
          rw [hr] at hl
          by_cases hn : cm.name = name
          · simp [hn] at hl
          · rw [ih2 hr]
            exact OnConfigChanged_stored_other w cm hw name (Ne.symm hn)

theorem run_kind {S : SectionTypes} (p : Parsers S) (k : Kind) (cm : ConfigMap) (v : Obj S)
    (h : p.run k cm = .ok v) : v.kind = some k := by
  cases k <;> simp only [Parsers.run] at h
  · cases hp : p.deployment cm <;> rw [hp] at h <;> cases h; rfl
  · cases hp : p.network cm <;> rw [hp] at h <;> cases h; rfl
  · cases hp : p.observability cm <;> rw [hp] at h <;> cases h; rfl
  · cases hp : p.logging cm <;> rw [hp] at h <;> cases h; rfl
  · cases hp : p.tracing cm <;> rw [hp] at h <;> cases h; rfl
  · cases hp : p.autoscaler cm <;> rw [hp] at h <;> cases h; rfl

theorem FromContext_ToContext (ctx : Context) (c : Option Nat) :
    FromContext (ToContext ctx c) = some c := by
  simp [FromContext, ToContext, Context.WithValue, Context.Value]

theorem NewStore_WF {S : SectionTypes} (names : Names) (p : Parsers S) (obs : List Nat)
    (h0 : Heap S) (cl0 : List (Nat × String × Nat)) :
    WF (⟨h0, NewStore names p obs, cl0⟩ : World S) := by
  intro e he
  simp [NewStore, NewUntypedStore] at he

theorem Load_WF {S : SectionTypes} (names : Names) (w : World S) (r : Nat × World S)
    (hw : WF w) (h : Load names w = some r) : WF r.2 := by
  obtain ⟨f, _, hr⟩ := typed_of_Load names w r h
  subst hr
  intro e he
  have := hw e he
  simp only [loadResult, List.length_append]
  omega

theorem mutate_WF {S : SectionTypes} (w : World S) (ws : List (Nat × Obj S)) (hw : WF w) :
    WF (mutate w ws) := by
  intro e he
  rw [(mutate_store w ws).1] at he
  rw [(mutate_store w ws).2.2]
  exact hw e he

theorem applyUpdates_WF {S : SectionTypes} (cms : List ConfigMap) (w : World S) (hw : WF w) :
    WF (applyUpdates w cms).1 := by
  induction cms generalizing w with
  | nil => exact hw
  | cons cm rest ih => exact ih _ (OnConfigChanged_WF w cm hw)

theorem stored_of_updates {S : SectionTypes} (names : Names) (p : Parsers S)
    (hd : names.Distinct) (obs : List Nat) (h0 : Heap S) (cl0 : List (Nat × String × Nat))
    (cms : List ConfigMap)
    (hok : (applyUpdates ⟨h0, NewStore names p obs, cl0⟩ cms).2 = [])
    (k : Kind) (cm : ConfigMap) (hcm : lastFor (names.of k) cms = some cm) :
    ∃ v, p.run k cm = .ok v ∧ v.kind = some k ∧
      stored (applyUpdates ⟨h0, NewStore names p obs, cl0⟩ cms).1 (names.of k) = some v := by
  obtain ⟨parse, v, hp, hv, hs⟩ :=
    (applyUpdates_stored cms _ (NewStore_WF names p obs h0 cl0) hok (names.of k)).1 cm hcm
  have hreg : Map.get (Map.ofList (constructorTable names p)) (names.of k) = some parse := hp
  rw [registry_get names p hd k] at hreg
  cases hreg
  exact ⟨v, hv, run_kind p k cm v hv, hs⟩

theorem loadSection_eq_loadEntry {S : SectionTypes} (names : Names) (k : Kind) (w : World S) :
    loadSection names k w = loadEntry (names.of k, k) w := rfl

theorem Load_loadTable {S : SectionTypes} (names : Names) (w : World S) :
    Load names w = (loadEntries (loadTable names) w).bind configOf := by
  unfold Load loadTable
  simp only [loadSection_eq_loadEntry, Names.of, loadEntries]
  cases loadEntry (names.deployment, Kind.deployment) w with
  | none => rfl
  | some r1 =>
  obtain ⟨d, w1⟩ := r1
  simp only []
  cases loadEntry (names.network, Kind.network) w1 with
  | none => rfl
  | some r2 =>
  obtain ⟨n, w2⟩ := r2
  simp only []
  cases loadEntry (names.observability, Kind.observability) w2 with
  | none => rfl
  | some r3 =>
  obtain ⟨o, w3⟩ := r3
  simp only []
  cases loadEntry (names.logging, Kind.logging) w3 with
  | none => rfl
  | some r4 =>
  obtain ⟨l, w4⟩ := r4
  simp only []
  cases loadEntry (names.tracing, Kind.tracing) w4 with
  | none => rfl
  | some r5 =>
  obtain ⟨t, w5⟩ := r5
  simp only []
  cases loadEntry (names.autoscaler, Kind.autoscaler) w5 with
  | none => rfl
  | some r6 =>
  obtain ⟨a, w6⟩ := r6
  rfl

theorem Map.get_foldl_isSome {β : Type} (es : List (String × β)) (m0 : Map β) (k : String) :
    (Map.get (es.foldl (fun m e => Map.set m e.1 e.2) m0) k).isSome = true ↔
      (Map.get m0 k).isSome = true ∨ k ∈ es.map Prod.fst := by
  induction es generalizing m0 with
  | nil => simp
  | cons e t ih =>
    simp only [List.foldl_cons, List.map_cons, List.mem_cons]
    rw [ih]
    by_cases h : k = e.1
    · subst h
      simp [Map.get_set_self]
    · rw [Map.get_set_other _ _ _ _ h]
      simp [h]

theorem registry_keys {S : SectionTypes} (names : Names) (p : Parsers S) (name : String) :
    (Map.get (Map.ofList (constructorTable names p)) name).isSome = true ↔
      name ∈ (constructorTable names p).map Prod.fst := by
  unfold Map.ofList
  rw [Map.get_foldl_isSome]
  simp [Map.get]

theorem loadTable_keys {S : SectionTypes} (names : Names) (p : Parsers S) (name : String) :
    name ∈ (loadTable names).map Prod.fst ↔
      name ∈ (constructorTable names p).map Prod.fst := by
  simp only [loadTable, constructorTable, List.map_cons, List.map_nil, List.mem_cons,
    List.mem_singleton, List.not_mem_nil, or_false]
  tauto

theorem mem_loadTable (names : Names) (e : String × Kind) (h : e ∈ loadTable names) :
    e = (names.of e.2, e.2) := by
  simp only [loadTable, List.mem_cons, List.mem_singleton, List.not_mem_nil, or_false] at h
  rcases h with h | h | h | h | h | h <;> subst h <;> rfl

theorem LoadI_nil {S : SectionTypes} (names : Names) (w : World S) :
    LoadI names (fun _ => []) [] w = Load names w := rfl

theorem Ext_refl {S : SectionTypes} (w : World S) : Ext w w := fun _ _ h => h

theorem Ext_trans {S : SectionTypes} (w1 w2 w3 : World S) (h12 : Ext w1 w2)
    (h23 : Ext w2 w3) : Ext w1 w3 :=
  fun a v h => h23 a v (h12 a v h)

theorem Ext_append {S : SectionTypes} (w w1 : World S) (l : Heap S)
    (h : w1.heap = w.heap ++ l) : Ext w w1 := by
  intro a v ha
  have hlt : a < w.heap.length := by
    by_contra hlt
    rw [List.getElem?_eq_none (Nat.le_of_not_lt hlt)] at ha
    cases ha
  rw [h, List.getElem?_append_left hlt]
  exact ha

theorem OnConfigChanged_Ext {S : SectionTypes} (w : World S) (cm : ConfigMap) :
    Ext w (OnConfigChanged w cm).1 := by
  rcases OnConfigChanged_cases w cm with ⟨e, h⟩ | ⟨parse, v, _, _, h⟩ <;> rw [h]
  · exact Ext_refl w
  · exact Ext_append w _ [v] rfl

theorem applyUpdates_Ext {S : SectionTypes} (cms : List ConfigMap) (w : World S) :
    Ext w (applyUpdates w cms).1 := by
  induction cms generalizing w with
  | nil => exact Ext_refl w
  | cons cm rest ih =>
    exact Ext_trans _ _ _ (OnConfigChanged_Ext w cm) (ih (OnConfigChanged w cm).1)

theorem applyUpdates_append {S : SectionTypes} (us vs : List ConfigMap) (w : World S) :
    (applyUpdates w (us ++ vs)).1 = (applyUpdates (applyUpdates w us).1 vs).1 := by
  induction us generalizing w with
  | nil => rfl
  | cons cm rest ih => exact ih (OnConfigChanged w cm).1

theorem applyUpdates_constructors {S : SectionTypes} (cms : List ConfigMap) (w : World S) :
    (applyUpdates w cms).1.store.constructors = w.store.constructors := by
  induction cms generalizing w with
  | nil => rfl
  | cons cm rest ih =>
    exact (ih (OnConfigChanged w cm).1).trans (OnConfigChanged_constructors w cm)

theorem OnConfigChanged_Sim {S : SectionTypes} (w h : World S) (cm : ConfigMap)
    (hw : WF w) (hh : WF h) (hs : Sim w h) :
    Sim (OnConfigChanged w cm).1 (OnConfigChanged h cm).1 := by
  refine ⟨?_, ?_⟩
  · rw [OnConfigChanged_constructors, OnConfigChanged_constructors]
    exact hs.1
  · intro name
    by_cases hn : name = cm.name
    · subst hn
      rcases OnConfigChanged_cases w cm with ⟨e, h1⟩ | ⟨parse, v, h1, h2, _⟩
      · rcases OnConfigChanged_cases h cm with ⟨e', h1'⟩ | ⟨parse', v', h1', h2', _⟩
        · rw [h1, h1']
          exact hs.2 _
        · exfalso
          have hp : Map.get w.store.constructors cm.name = some parse' := by
            rw [hs.1]; exact h1'
          have h3 := OnConfigChanged_ok w cm parse' v' hp h2'
          rw [h1] at h3
          have h4 := congrArg Prod.snd h3
          cases h4
      · have hp : Map.get h.store.constructors cm.name = some parse := by
          rw [← hs.1]; exact h1
        rw [OnConfigChanged_stored_self w cm parse v h1 h2,
          OnConfigChanged_stored_self h cm parse v hp h2]
    · rw [OnConfigChanged_stored_other w cm hw name hn,
        OnConfigChanged_stored_other h cm hh name hn]
      exact hs.2 name

theorem applyUpdates_Sim {S : SectionTypes} (cms : List ConfigMap) (w h : World S)
    (hw : WF w) (hh : WF h) (hs : Sim w h) :
    Sim (applyUpdates w cms).1 (applyUpdates h cms).1 := by
  induction cms generalizing w h with
  | nil => exact hs
  | cons cm rest ih =>
    exact ih _ _ (OnConfigChanged_WF w cm hw) (OnConfigChanged_WF h cm hh)
      (OnConfigChanged_Sim w h cm hw hh hs)

theorem Sim_refl {S : SectionTypes} (w : World S) : Sim w w := ⟨rfl, fun _ => rfl⟩

theorem loadSection_some {S : SectionTypes} (names : Names) (k : Kind) (w w1 : World S)
    (a : Nat) (hl : loadSection names k w = some (a, w1)) :
    ∃ v, stored w (names.of k) = some v ∧ v.kind = some k ∧ a = w.heap.length ∧
      w1.heap = w.heap ++ [v] ∧ w1.store = w.store := by
  obtain ⟨h, st, cl⟩ := w
  have e := loadSection_append names k h st cl [] (by simp)
  simp only [List.append_nil, List.length_nil, Nat.add_zero] at e
  rw [e] at hl
  cases ht : typed names ⟨h, st, cl⟩ k with
  | none => rw [ht] at hl; cases hl
  | some v =>
    rw [ht] at hl
    simp only [Option.map_some', Option.some.injEq, Prod.mk.injEq] at hl
    obtain ⟨ha, hw1⟩ := hl
    subst hw1
    exact ⟨v, typed_stored names _ k v ht, typed_kind names _ k v ht, ha.symm, rfl, rfl⟩

theorem loadSection_of_stored {S : SectionTypes} (names : Names) (k : Kind) (w : World S)
    (v : Obj S) (hs : stored w (names.of k) = some v) (hk : v.kind = some k) :
    ∃ a w1, loadSection names k w = some (a, w1) := by
  obtain ⟨h, st, cl⟩ := w
  have e := loadSection_append names k h st cl [] (by simp)
  simp only [List.append_nil, List.length_nil, Nat.add_zero] at e
  have ht : typed names ⟨h, st, cl⟩ k = some v := by
    unfold typed
    rw [hs]
    simp [hk]
  rw [ht] at e
  exact ⟨_, _, e⟩

theorem stored_append {S : SectionTypes} (w w1 : World S) (l : Heap S) (name : String)
    (hst : w1.store = w.store) (hh : w1.heap = w.heap ++ l) (hw : WF w) :
    stored w1 name = stored w name := by
  unfold stored UntypedLoad
  rw [hst, hh]
  cases ha : Map.get w.store.storages name with
  | none => rfl
  | some a => exact List.getElem?_append_left (WF_get w hw name a ha)

theorem stageI {S : SectionTypes} (names : Names) (k : Kind) (us : List ConfigMap)
    (w h w1 : World S) (a : Nat) (hw : WF w) (hh : WF h) (hs : Sim w h)
    (hl : loadSection names k (applyUpdates w us).1 = some (a, w1)) :
    ∃ v, stored (applyUpdates h us).1 (names.of k) = some v ∧ v.kind = some k ∧
      w1.heap[a]? = some v ∧ WF w1 ∧ WF (applyUpdates h us).1 ∧
      Sim w1 (applyUpdates h us).1 ∧ Ext w w1 := by
  have hw' := applyUpdates_WF us w hw
  have hh' := applyUpdates_WF us h hh
  have hs' := applyUpdates_Sim us w h hw hh hs
  obtain ⟨v, hv, hk, ha, hheap, hst⟩ := loadSection_some names k _ w1 a hl
  refine ⟨v, ?_, hk, ?_, ?_, hh', ?_, ?_⟩
  · rw [← hs'.2]
    exact hv
  · rw [hheap, ha]
    exact (heap_append_at _ _ 0 _ rfl).trans rfl
  · intro e he
    rw [hst] at he
    have := hw' e he
    rw [hheap, List.length_append, List.length_singleton]
    omega
  · refine ⟨?_, ?_⟩
    · rw [hst]
      exact hs'.1
    · intro name
      rw [stored_append _ w1 [v] name hst hheap hw']
      exact hs'.2 name
  · exact Ext_trans _ _ _ (applyUpdates_Ext us w) (Ext_append _ w1 [v] hheap)

theorem OnConfigChanged_populated {S : SectionTypes} (names : Names) (p : Parsers S)
    (hd : names.Distinct) (h : World S) (cm : ConfigMap) (hw : WF h)
    (hreg : h.store.constructors = Map.ofList (constructorTable names p))
    (hpop : ∀ k, ∃ v, stored h (names.of k) = some v ∧ v.kind = some k) (k : Kind) :
    ∃ v, stored (OnConfigChanged h cm).1 (names.of k) = some v ∧ v.kind = some k := by
  by_cases hn : names.of k = cm.name
  · rcases OnConfigChanged_cases h cm with ⟨e, h1⟩ | ⟨parse, v, h1, h2, _⟩
    · rw [h1]
      exact hpop k
    · have hs := OnConfigChanged_stored_self h cm parse v h1 h2
      rw [← hn] at hs h1
      rw [hreg, registry_get names p hd k] at h1
      cases h1
      exact ⟨v, hs, run_kind p k cm v h2⟩
  · rw [OnConfigChanged_stored_other h cm hw (names.of k) hn]
    exact hpop k

theorem applyUpdates_populated {S : SectionTypes} (names : Names) (p : Parsers S)
    (hd : names.Distinct) (cms : List ConfigMap) (h : World S) (hw : WF h)
    (hreg : h.store.constructors = Map.ofList (constructorTable names p))
    (hpop : ∀ k, ∃ v, stored h (names.of k) = some v ∧ v.kind = some k) (k : Kind) :
    ∃ v, stored (applyUpdates h cms).1 (names.of k) = some v ∧ v.kind = some k := by
  induction cms generalizing h with
  | nil => exact hpop k
  | cons cm rest ih =>
    exact ih _ (OnConfigChanged_WF h cm hw)
      ((OnConfigChanged_constructors h cm).trans hreg)
      (fun j => OnConfigChanged_populated names p hd h cm hw hreg hpop j)

theorem stageI_ok {S : SectionTypes} (names : Names) (p : Parsers S) (hd : names.Distinct)
    (k : Kind) (us : List ConfigMap) (w h : World S) (hw : WF w) (hh : WF h) (hs : Sim w h)
    (hreg : h.store.constructors = Map.ofList (constructorTable names p))
    (hpop : ∀ k, ∃ v, stored h (names.of k) = some v ∧ v.kind = some k) :
    ∃ a w1, loadSection names k (applyUpdates w us).1 = some (a, w1) ∧ WF w1 ∧
      WF (applyUpdates h us).1 ∧ Sim w1 (applyUpdates h us).1 ∧
      (applyUpdates h us).1.store.constructors = Map.ofList (constructorTable names p) ∧
      ∀ k, ∃ v, stored (applyUpdates h us).1 (names.of k) = some v ∧ v.kind = some k := by
  have hpop' := applyUpdates_populated names p hd us h hh hreg hpop
  obtain ⟨v, hv, hk⟩ := hpop' k
  have hs' := applyUpdates_Sim us w h hw hh hs
  rw [← hs'.2] at hv
  obtain ⟨a, w1, hl⟩ := loadSection_of_stored names k _ v hv hk
  obtain ⟨_, _, _, _, hw1, hh1, hs1, _⟩ := stageI names k us w h w1 a hw hh hs hl
  exact ⟨a, w1, hl, hw1, hh1, hs1, (applyUpdates_constructors us h).trans hreg, hpop'⟩

theorem observe_config {S : SectionTypes} (H : Heap S) (cfg : Config) (k : Kind) (a : Nat)
    (v : Obj S) (hf : cfg.field k = some a) (hv : H[a]? = some v) :
    observe (H ++ [Obj.config cfg]) H.length k = some v := by
  have hlt : a < H.length := by
    by_contra hlt
    rw [List.getElem?_eq_none (Nat.le_of_not_lt hlt)] at hv
    cases hv
  unfold observe
  rw [(heap_append_at H [Obj.config cfg] 0 H.length rfl).trans rfl]
  show (match cfg.field k with
    | none => none
    | some a => (H ++ [Obj.config cfg])[a]?) = some v
  rw [hf]
  show (H ++ [Obj.config cfg])[a]? = some v
  rw [List.getElem?_append_left hlt]
  exact hv

theorem applyUpdates_snoc {S : SectionTypes} (us : List ConfigMap) (cm : ConfigMap)
    (w : World S) :
    (applyUpdates w (us ++ [cm])).1 = (OnConfigChanged (applyUpdates w us).1 cm).1 := by
  rw [applyUpdates_append]
  rfl

theorem applyUpdates_installed {S : SectionTypes} (cms : List ConfigMap) (w : World S)
    (hw : WF w) (name : String) :
    stored (applyUpdates w cms).1 name = stored w name ∨
    ∃ pre cm post, cms = pre ++ cm :: post ∧ cm.name = name ∧
      (OnConfigChanged (applyUpdates w pre).1 cm).2 = none ∧
      stored (applyUpdates w cms).1 name =
        stored (OnConfigChanged (applyUpdates w pre).1 cm).1 name := by
  induction cms using List.reverseRecOn with
  | nil => exact Or.inl rfl
  | append_singleton init last ih =>
    rw [applyUpdates_snoc]
    have hwi := applyUpdates_WF init w hw
    by_cases hn : name = last.name
    · rcases OnConfigChanged_cases (applyUpdates w init).1 last with ⟨e, h1⟩ | ⟨parse, v, _, _, h1⟩
      · rw [h1]
        rcases ih with ih | ⟨pre, cm, post, hc, hcn, hok, hst⟩
        · exact Or.inl ih
        · exact Or.inr ⟨pre, cm, post ++ [last], by rw [hc]; simp, hcn, hok, hst⟩
      · refine Or.inr ⟨init, last, [], rfl, hn.symm, ?_, rfl⟩
        rw [h1]
    · rw [OnConfigChanged_stored_other _ last hwi name hn]
      rcases ih with ih | ⟨pre, cm, post, hc, hcn, hok, hst⟩
      · exact Or.inl ih
      · exact Or.inr ⟨pre, cm, post ++ [last], by rw [hc]; simp, hcn, hok, hst⟩

/-! ## Evaluation at the concrete instance -/

theorem demoNames_distinct : demoNames.Distinct := by decide

theorem demoWorld_WF : WF demoWorld :=
  applyUpdates_WF demoUpdates demoNew (NewStore_WF demoNames demoParsers [7] [] [])

theorem demo_Load_address : (Load demoNames demoWorld).map (fun r => r.1) = some 13 := rfl

theorem demo_snapshot_network :
    (snapshot demoNames demoWorld).map (fun f => f .network) =
      some (some (Obj.network "*")) := rfl

theorem demo_mutation_isolated :
    (Load demoNames demoWorld).map (fun r =>
      (snapshot demoNames (mutate r.2
        [(7, Obj.deployment "mutated"), (8, Obj.network "mutated"),
         (10, Obj.logging "mutated")])).map (fun f => (f .deployment, f .network))) =
      some (some (some (Obj.deployment "queue:v1"), some (Obj.network "*"))) := rfl

/-! ## The properties of the store -/

/-- C1 (deep-copy isolation): on a store whose six sections all hold a value of their type,
`Load` returns a `Config` whose fields show the stored values through pointers that are not
the stored pointers; after any assignments through the pointers reachable from that `Config`,
the store holds the same values and a further `Load` reports exactly what it would have
reported without the assignments. -/
theorem Load_deep_copy_isolation {S : SectionTypes} (names : Names) (w : World S)
    (hpop : ∀ k, ∃ v, stored w (names.of k) = some v ∧ v.kind = some k) :
    ∃ c w1, Load names w = some (c, w1) ∧
      (∀ k, observe w1.heap c k = stored w (names.of k)) ∧
      (∀ k a, UntypedLoad w (names.of k) = some a → a ∉ reach w1.heap c) ∧
      ∀ ws : List (Nat × Obj S), (∀ e ∈ ws, e.1 ∈ reach w1.heap c) →
        (∀ k, stored (mutate w1 ws) (names.of k) = stored w (names.of k)) ∧
        snapshot names (mutate w1 ws) = snapshot names w1 ∧
        snapshot names w1 = some (fun k => stored w (names.of k)) := by
  choose f hf using hpop
  have hs : ∀ k, stored w (names.of k) = some (f k) := fun k => (hf k).1
  have ht : ∀ k, typed names w k = some (f k) := by
    intro k
    unfold typed
    rw [hs k]
    simp [(hf k).2]
  have hfun : (fun k => stored w (names.of k)) = fun k => some (f k) := funext hs
  have hreach := reach_loadResult w (f .deployment) (f .network) (f .observability)
    (f .logging) (f .tracing) (f .autoscaler)
  refine ⟨(loadResult w (f .deployment) (f .network) (f .observability)
      (f .logging) (f .tracing) (f .autoscaler)).1,
    (loadResult w (f .deployment) (f .network) (f .observability)
      (f .logging) (f .tracing) (f .autoscaler)).2, Load_of_typed names w f ht, ?_, ?_, ?_⟩
  · intro k
    exact (observe_loadResult w f k).trans (hs k).symm
  · intro k a hu hmem
    obtain ⟨a', hu', _, hlt⟩ := stored_some w _ _ (hs k)
    rw [hu] at hu'
    cases hu'
    have hmem' : a ∈ [w.heap.length + 6, w.heap.length, w.heap.length + 1,
        w.heap.length + 2, w.heap.length + 3, w.heap.length + 4, w.heap.length + 5] := by
      rw [← hreach]; exact hmem
    simp only [List.mem_cons, List.mem_singleton, List.not_mem_nil, or_false] at hmem'
    omega
  · intro ws hws
    have hge : ∀ e ∈ ws, w.heap.length ≤ e.1 := by
      intro e he
      have hmem' : e.1 ∈ [w.heap.length + 6, w.heap.length, w.heap.length + 1,
          w.heap.length + 2, w.heap.length + 3, w.heap.length + 4, w.heap.length + 5] := by
        rw [← hreach]; exact hws e he
      simp only [List.mem_cons, List.mem_singleton, List.not_mem_nil, or_false] at hmem'
      omega
    have hs1 : ∀ k, stored (loadResult w (f .deployment) (f .network) (f .observability)
        (f .logging) (f .tracing) (f .autoscaler)).2 (names.of k) = some (f k) := by
      intro k
      exact stored_transfer w _ _ _ rfl (fun a ha => loadResult_heap w _ _ _ _ _ _ a ha) (hs k)
    have hs2 : ∀ k, stored (mutate (loadResult w (f .deployment) (f .network)
        (f .observability) (f .logging) (f .tracing) (f .autoscaler)).2 ws) (names.of k) =
        some (f k) := by
      intro k
      refine stored_transfer w _ _ _ ?_ ?_ (hs k)
      · rw [(mutate_store _ ws).1]
        rfl
      · intro a ha
        rw [mutate_heap _ ws a (fun e he => by have := hge e he; omega)]
        exact loadResult_heap w _ _ _ _ _ _ a ha
    refine ⟨fun k => by rw [hs2 k, hs k], ?_, ?_⟩
    · apply snapshot_congr
      intro k
      apply typed_congr
      rw [hs2 k, hs1 k]
    · rw [hfun]
      apply snapshot_of_typed
      intro k
      rw [← ht k]
      apply typed_congr
      rw [hs1 k, hs k]

theorem demo_LoadI_mixed :
    (LoadI demoNames demoSched [] demoWorld).map (fun r =>
      (observe r.2.heap r.1 .deployment, observe r.2.heap r.1 .network,
        stored r.2 "config-deployment")) =
      some (some (Obj.deployment "queue:v1"), some (Obj.network "192.168.0.0/16"),
        some (Obj.deployment "queue:v2")) := rfl

theorem Load_deep_copy_isolation_witness :
    (∀ k, ∃ v, stored demoWorld (demoNames.of k) = some v ∧ v.kind = some k) ∧
    ∃ c w1, Load demoNames demoWorld = some (c, w1) ∧
      (∀ k, observe w1.heap c k = stored demoWorld (demoNames.of k)) ∧
      (∀ k a, UntypedLoad demoWorld (demoNames.of k) = some a → a ∉ reach w1.heap c) ∧
      ∀ ws : List (Nat × Obj demoTypes), (∀ e ∈ ws, e.1 ∈ reach w1.heap c) →
        (∀ k, stored (mutate w1 ws) (demoNames.of k) = stored demoWorld (demoNames.of k)) ∧
        snapshot demoNames (mutate w1 ws) = snapshot demoNames w1 ∧
        snapshot demoNames w1 = some (fun k => stored demoWorld (demoNames.of k)) :=
  have hpop : ∀ k, ∃ v, stored demoWorld (demoNames.of k) = some v ∧ v.kind = some k :=
    fun k => by cases k <;> exact ⟨_, rfl, rfl⟩
  ⟨hpop, Load_deep_copy_isolation demoNames demoWorld hpop⟩

/-- C2: the six section names being pairwise different, after any sequence of successful
updates of a new store that covers all six sections, `Load` returns a `Config` each of whose
fields shows the result of that section's registered parser on the most recent bundle for
that section, and `FromContext(store.ToContext(ctx))` returns that same `Config`. -/
theorem Load_reports_latest {S : SectionTypes} (names : Names) (p : Parsers S)
    (hd : names.Distinct) (obs : List Nat) (h0 : Heap S) (cl0 : List (Nat × String × Nat))
    (cms : List ConfigMap) (ctx : Context)
    (hok : (applyUpdates ⟨h0, NewStore names p obs, cl0⟩ cms).2 = [])
    (hcov : ∀ k, ∃ cm, lastFor (names.of k) cms = some cm) :
    ∃ c w', Load names (applyUpdates ⟨h0, NewStore names p obs, cl0⟩ cms).1 = some (c, w') ∧
      (∀ k, ∃ cm v, lastFor (names.of k) cms = some cm ∧ p.run k cm = .ok v ∧
        observe w'.heap c k = some v) ∧
      Store.ToContext names (applyUpdates ⟨h0, NewStore names p obs, cl0⟩ cms).1 ctx =
        some (ToContext ctx (some c), w') ∧
      FromContext (ToContext ctx (some c)) = some (some c) := by
  have key : ∀ k, ∃ cm v, lastFor (names.of k) cms = some cm ∧ p.run k cm = .ok v ∧
      v.kind = some k ∧
      stored (applyUpdates ⟨h0, NewStore names p obs, cl0⟩ cms).1 (names.of k) = some v := by
    intro k
    obtain ⟨cm, hcm⟩ := hcov k
    obtain ⟨v, hv, hkind, hs⟩ := stored_of_updates names p hd obs h0 cl0 cms hok k cm hcm
    exact ⟨cm, v, hcm, hv, hkind, hs⟩
  choose cmf f hf using key
  have ht : ∀ k, typed names (applyUpdates ⟨h0, NewStore names p obs, cl0⟩ cms).1 k =
      some (f k) := by
    intro k
    unfold typed
    rw [(hf k).2.2.2]
    simp [(hf k).2.2.1]
  have hl := Load_of_typed names _ f ht
  refine ⟨(loadResult _ (f .deployment) (f .network) (f .observability)
      (f .logging) (f .tracing) (f .autoscaler)).1,
    (loadResult _ (f .deployment) (f .network) (f .observability)
      (f .logging) (f .tracing) (f .autoscaler)).2, hl, ?_, ?_, FromContext_ToContext _ _⟩
  · intro k
    exact ⟨cmf k, f k, (hf k).1, (hf k).2.1, observe_loadResult _ f k⟩
  · unfold Store.ToContext
    rw [hl]

theorem Load_reports_latest_witness :
    demoNames.Distinct ∧ (applyUpdates demoNew demoUpdates).2 = [] ∧
    (∀ k, ∃ cm, lastFor (demoNames.of k) demoUpdates = some cm) ∧
    ∃ c w', Load demoNames (applyUpdates demoNew demoUpdates).1 = some (c, w') ∧
      (∀ k, ∃ cm v, lastFor (demoNames.of k) demoUpdates = some cm ∧
        demoParsers.run k cm = .ok v ∧ observe w'.heap c k = some v) ∧
      Store.ToContext demoNames (applyUpdates demoNew demoUpdates).1 [] =
        some (ToContext [] (some c), w') ∧
      FromContext (ToContext [] (some c)) = some (some c) :=
  have hok : (applyUpdates demoNew demoUpdates).2 = [] := by decide
  have hcov : ∀ k, ∃ cm, lastFor (demoNames.of k) demoUpdates = some cm :=
    fun k => by cases k <;> exact ⟨_, rfl⟩
  ⟨demoNames_distinct, hok, hcov,
    Load_reports_latest demoNames demoParsers demoNames_distinct [7] [] [] demoUpdates []
      hok hcov⟩

/-- C3: an update of a registered section whose parser returns an error reports a
`ParseError` with the section name and the cause, and leaves the whole state as it was: every
stored value is retained and `Load` reports what it reported before. -/
theorem parse_error_is_noop {S : SectionTypes} (names : Names) (w : World S) (cm : ConfigMap)
    (parse : Constructor S) (e : String)
    (hreg : Map.get w.store.constructors cm.name = some parse) (herr : parse cm = .error e) :
    OnConfigChanged w cm = (w, some (.ParseError cm.name e)) ∧
      (∀ name, UntypedLoad (OnConfigChanged w cm).1 name = UntypedLoad w name) ∧
      (∀ name, stored (OnConfigChanged w cm).1 name = stored w name) ∧
      Load names (OnConfigChanged w cm).1 = Load names w ∧
      snapshot names (OnConfigChanged w cm).1 = snapshot names w := by
  have h := OnConfigChanged_error w cm parse e hreg herr
  rw [h]
  exact ⟨rfl, fun _ => rfl, fun _ => rfl, rfl, rfl⟩

theorem parse_error_is_noop_witness :
    Map.get demoWorld.store.constructors demoBad.name = some (demoParsers.run .network) ∧
    demoParsers.run .network demoBad = .error "outboundIPRanges" ∧
    OnConfigChanged demoWorld demoBad =
      (demoWorld, some (.ParseError "config-network" "outboundIPRanges")) ∧
    stored (OnConfigChanged demoWorld demoBad).1 "config-network" =
      some (Obj.network "*") :=
  have h := parse_error_is_noop demoNames demoWorld demoBad (demoParsers.run .network)
    "outboundIPRanges" rfl rfl
  ⟨rfl, rfl, h.1, (h.2.2.1 "config-network").trans rfl⟩

/-- C4: an update whose name is none of the six names registered by `NewStore` reports
`UnknownSection`, which is not a `ParseError`, and leaves the whole state as it was. -/
theorem unknown_section_is_noop {S : SectionTypes} (names : Names) (p : Parsers S)
    (obs : List Nat) (w : World S) (cm : ConfigMap)
    (hreg : w.store.constructors = (NewStore names p obs).constructors)
    (hname : ∀ k, cm.name ≠ names.of k) :
    OnConfigChanged w cm = (w, some .UnknownSection) ∧
      (∀ n c, (OnConfigChanged w cm).2 ≠ some (.ParseError n c)) ∧
      (∀ name, UntypedLoad (OnConfigChanged w cm).1 name = UntypedLoad w name) ∧
      (∀ name, stored (OnConfigChanged w cm).1 name = stored w name) ∧
      snapshot names (OnConfigChanged w cm).1 = snapshot names w := by
  have hnone : Map.get w.store.constructors cm.name = none := by
    rw [hreg]
    exact registry_get_none names p cm.name hname
  have h := OnConfigChanged_unknown w cm hnone
  rw [h]
  refine ⟨rfl, ?_, fun _ => rfl, fun _ => rfl, rfl⟩
  intro n c hc
  cases hc

theorem unknown_section_is_noop_witness :
    demoWorld.store.constructors = (NewStore demoNames demoParsers [7]).constructors ∧
    (∀ k, "config-domain" ≠ demoNames.of k) ∧
    OnConfigChanged demoWorld { name := "config-domain", data := [] } =
      (demoWorld, some UpdateError.UnknownSection) :=
  have hname : ∀ k, "config-domain" ≠ demoNames.of k := fun k => by cases k <;> decide
  ⟨rfl, hname,
    (unknown_section_is_noop demoNames demoParsers [7] demoWorld
      { name := "config-domain", data := [] } rfl hname).1⟩

/-- C5: `FromContext(ToContext(ctx, c))` is `c`; the new context carries under every other
key what `ctx` carries and has `ctx` as parent; and on a store whose six sections all hold a
value, `FromContext(s.ToContext(ctx))` is the `Config` that `Load` returns in that state. -/
theorem context_round_trip {S : SectionTypes} (names : Names) (ctx : Context)
    (c : Option Nat) (w : World S)
    (hpop : ∀ k, ∃ v, stored w (names.of k) = some v ∧ v.kind = some k) :
    FromContext (ToContext ctx c) = some c ∧
      (∀ k, k ≠ Key.cfgKey → (ToContext ctx c).Value k = ctx.Value k) ∧
      (ToContext ctx c).tail = ctx ∧
      ∃ c' w' ctx', Load names w = some (c', w') ∧
        Store.ToContext names w ctx = some (ctx', w') ∧
        FromContext ctx' = some (some c') := by
  refine ⟨FromContext_ToContext ctx c, ?_, rfl, ?_⟩
  · intro k hk
    simp [ToContext, Context.WithValue, Context.Value, Ne.symm hk]
  · choose f hf using hpop
    have ht : ∀ k, typed names w k = some (f k) := by
      intro k
      unfold typed
      rw [(hf k).1]
      simp [(hf k).2]
    have hl := Load_of_typed names w f ht
    refine ⟨(loadResult w (f .deployment) (f .network) (f .observability)
        (f .logging) (f .tracing) (f .autoscaler)).1,
      (loadResult w (f .deployment) (f .network) (f .observability)
        (f .logging) (f .tracing) (f .autoscaler)).2, _, hl, ?_, FromContext_ToContext ctx _⟩
    unfold Store.ToContext
    rw [hl]

theorem context_round_trip_witness :
    (∀ k, ∃ v, stored demoWorld (demoNames.of k) = some v ∧ v.kind = some k) ∧
    FromContext (ToContext [(Key.other "trace", CtxVal.other 1)] (some 3)) = some (some 3) ∧
    ∃ c' w' ctx', Load demoNames demoWorld = some (c', w') ∧
      Store.ToContext demoNames demoWorld [(Key.other "trace", CtxVal.other 1)] =
        some (ctx', w') ∧
      FromContext ctx' = some (some c') :=
  have hpop : ∀ k, ∃ v, stored demoWorld (demoNames.of k) = some v ∧ v.kind = some k :=
    fun k => by cases k <;> exact ⟨_, rfl, rfl⟩
  have h := context_round_trip demoNames [(Key.other "trace", CtxVal.other 1)] (some 3)
    demoWorld hpop
  ⟨hpop, h.1, h.2.2.2⟩

/-- C6: on a context in which no value was ever attached under `cfgKey{}`, such as
`context.Background()`, `FromContext` panics: it returns no `*Config`, not even a nil one. -/
theorem FromContext_absent_panics (ctx : Context) (h : ∀ e ∈ ctx, e.1 ≠ Key.cfgKey) :
    FromContext ctx = none ∧ ctx.Value .cfgKey = none := by
  have hv : ctx.Value .cfgKey = none := by
    induction ctx with
    | nil => rfl
    | cons e t ih =>
      obtain ⟨k, v⟩ := e
      have hk : k ≠ Key.cfgKey := h (k, v) (List.mem_cons_self _ _)
      simp only [Context.Value, hk, if_false]
      exact ih (fun e he => h e (List.mem_cons_of_mem _ he))
  exact ⟨by simp [FromContext, hv], hv⟩

theorem FromContext_absent_panics_witness :
    (∀ e ∈ [(Key.other "trace", CtxVal.other 1)], e.1 ≠ Key.cfgKey) ∧
    FromContext [(Key.other "trace", CtxVal.other 1)] = none :=
  have h : ∀ e ∈ [(Key.other "trace", CtxVal.other 1)], e.1 ≠ Key.cfgKey := by decide
  ⟨h, (FromContext_absent_panics [(Key.other "trace", CtxVal.other 1)] h).1⟩

/-- C7 (counterexample): on a new store, where no section was ever updated, `Load` panics
instead of returning a `Config`. -/
theorem Load_new_store_panics :
    UntypedLoad demoNew (demoNames.of .deployment) = none ∧ Load demoNames demoNew = none :=
  ⟨rfl, rfl⟩

/-- C7 (as amended): if a registered section was never updated, so that `UntypedLoad` returns
nil for it, then `Load` panics on the unchecked type assertion and returns no `Config`, and so
does `Store.ToContext`. -/
theorem Load_panics_when_unset {S : SectionTypes} (names : Names) (w : World S) (k : Kind)
    (ctx : Context) (h : UntypedLoad w (names.of k) = none) :
    Load names w = none ∧ Store.ToContext names w ctx = none := by
  have ht : typed names w k = none := by
    simp [typed, stored, h]
  have hl := Load_none_of_typed names w k ht
  refine ⟨hl, ?_⟩
  unfold Store.ToContext
  rw [hl]

theorem Load_panics_when_unset_witness :
    UntypedLoad demoPartial (demoNames.of .autoscaler) = none ∧
    Load demoNames demoPartial = none ∧ Store.ToContext demoNames demoPartial [] = none :=
  ⟨rfl, Load_panics_when_unset demoNames demoPartial .autoscaler [] rfl⟩

/-- C8: in a state without dangling stored pointers, an update for one name, successful or
not, leaves the stored pointer and value of every section with another name as they were, and
`Load` reports the same value for that section before and after. -/
theorem section_independence {S : SectionTypes} (names : Names) (w : World S)
    (cm : ConfigMap) (k : Kind) (hw : WF w) (hk : names.of k ≠ cm.name) :
    UntypedLoad (OnConfigChanged w cm).1 (names.of k) = UntypedLoad w (names.of k) ∧
      stored (OnConfigChanged w cm).1 (names.of k) = stored w (names.of k) ∧
      ∀ f f', snapshot names w = some f → snapshot names (OnConfigChanged w cm).1 = some f' →
        f' k = f k := by
  have hs := OnConfigChanged_stored_other w cm hw (names.of k) hk
  refine ⟨?_, hs, ?_⟩
  · rcases OnConfigChanged_cases w cm with ⟨e, h⟩ | ⟨parse, v, _, _, h⟩ <;> rw [h]
    simp only [UntypedLoad]
    exact Map.get_set_other _ _ _ _ hk
  · intro f f' hf hf'
    rw [(snapshot_field names _ f' hf' k).2.1, (snapshot_field names _ f hf k).2.1, hs]

theorem section_independence_witness :
    WF demoPartial ∧ demoNames.of .network ≠ "config-logging" ∧
    stored (OnConfigChanged demoPartial
        { name := "config-logging", data := [("level", "info")] }).1 "config-network" =
      some (Obj.network "10.0.0.0/8") :=
  have hw : WF demoPartial :=
    applyUpdates_WF (demoUpdates.take 5) demoNew (NewStore_WF demoNames demoParsers [7] [] [])
  have hk : demoNames.of .network ≠ "config-logging" := by decide
  ⟨hw, hk,
    (section_independence demoNames demoPartial
      { name := "config-logging", data := [("level", "info")] } .network hw hk).2.1.trans rfl⟩

/-- C9: in a state without dangling stored pointers, delivering the same bundle twice in a
row leaves every stored value, the error reported and what `Load` reports as they are after
delivering it once. -/
theorem update_idempotent {S : SectionTypes} (names : Names) (w : World S) (cm : ConfigMap)
    (hw : WF w) :
    (∀ name, stored (OnConfigChanged (OnConfigChanged w cm).1 cm).1 name =
        stored (OnConfigChanged w cm).1 name) ∧
      (OnConfigChanged (OnConfigChanged w cm).1 cm).2 = (OnConfigChanged w cm).2 ∧
      snapshot names (OnConfigChanged (OnConfigChanged w cm).1 cm).1 =
        snapshot names (OnConfigChanged w cm).1 := by
  have hstored : ∀ name, stored (OnConfigChanged (OnConfigChanged w cm).1 cm).1 name =
      stored (OnConfigChanged w cm).1 name := by
    intro name
    rcases OnConfigChanged_cases w cm with ⟨e, h⟩ | ⟨parse, v, h1, h2, _⟩
    · rw [h, h]
    · by_cases hn : name = cm.name
      · subst hn
        rw [OnConfigChanged_stored_self w cm parse v h1 h2]
        exact OnConfigChanged_stored_self _ cm parse v
          (by rw [OnConfigChanged_constructors w cm]; exact h1) h2
      · exact OnConfigChanged_stored_other _ cm (OnConfigChanged_WF w cm hw) name hn
  refine ⟨hstored, ?_, ?_⟩
  · rcases OnConfigChanged_cases w cm with ⟨e, h⟩ | ⟨parse, v, h1, h2, h⟩
    · rw [h, h]
    · rw [OnConfigChanged_ok _ cm parse v
        (by rw [OnConfigChanged_constructors w cm]; exact h1) h2, h]
  · apply snapshot_congr
    intro k
    exact typed_congr names _ _ k (hstored _)

theorem update_idempotent_witness :
    WF demoWorld ∧
    (∀ name, stored (OnConfigChanged (OnConfigChanged demoWorld
        { name := "config-logging", data := [("level", "info")] }).1
        { name := "config-logging", data := [("level", "info")] }).1 name =
      stored (OnConfigChanged demoWorld
        { name := "config-logging", data := [("level", "info")] }).1 name) ∧
    snapshot demoNames (OnConfigChanged (OnConfigChanged demoWorld
        { name := "config-logging", data := [("level", "info")] }).1
        { name := "config-logging", data := [("level", "info")] }).1 =
      snapshot demoNames (OnConfigChanged demoWorld
        { name := "config-logging", data := [("level", "info")] }).1 :=
  have h := update_idempotent demoNames demoWorld
    { name := "config-logging", data := [("level", "info")] } demoWorld_WF
  ⟨demoWorld_WF, h.1, h.2.2⟩

/-- C10: in every execution of `Load` overlapped by updates, in a state without dangling
stored pointers, each field of the returned `Config` shows the value the store held for that
section when its slot was read, that is after exactly the updates that took effect before
that read (a prefix of the overlapping updates, which may differ from field to field); that
value is the one held before `Load` began or the one installed by a successful overlapping
update of that section, never another; the overlapped `Load` leaves the store as the updates
alone would; and on a store whose six sections hold a value it returns. -/
theorem LoadI_per_section {S : SectionTypes} (names : Names) (p : Parsers S)
    (obs : List Nat) (w : World S) (sched : Kind → List ConfigMap) (after : List ConfigMap)
    (hw : WF w) :
    (∀ c w', LoadI names sched after w = some (c, w') →
      (∀ k, ∃ v, observe w'.heap c k = some v ∧ v.kind = some k ∧
        stored (applyUpdates w (completedBefore sched k)).1 (names.of k) = some v) ∧
      ∀ name, stored w' name =
        stored (applyUpdates w (overlapping sched after)).1 name) ∧
    (∀ k, ∃ post, overlapping sched after = completedBefore sched k ++ post) ∧
    (∀ k, stored (applyUpdates w (completedBefore sched k)).1 (names.of k) =
        stored w (names.of k) ∨
      ∃ pre cm post, completedBefore sched k = pre ++ cm :: post ∧ cm.name = names.of k ∧
        (OnConfigChanged (applyUpdates w pre).1 cm).2 = none ∧
        stored (applyUpdates w (completedBefore sched k)).1 (names.of k) =
          stored (OnConfigChanged (applyUpdates w pre).1 cm).1 (names.of k)) ∧
    (names.Distinct → w.store.constructors = (NewStore names p obs).constructors →
      (∀ k, ∃ v, stored w (names.of k) = some v ∧ v.kind = some k) →
      ∃ c w', LoadI names sched after w = some (c, w')) := by
  refine ⟨?_, ?_, fun k => applyUpdates_installed _ w hw _, ?_⟩
  · intro c w' h
    unfold LoadI at h
    cases h1 : loadSection names .deployment (applyUpdates w (sched .deployment)).1 with
    | none => simp [h1] at h
    | some r1 =>
    obtain ⟨d, w1⟩ := r1
    simp only [h1] at h
    obtain ⟨v1, hv1, hk1, hc1, hw1, hh1, hs1, he1⟩ :=
      stageI names .deployment (sched .deployment) w w w1 d hw hw (Sim_refl w) h1
    cases h2 : loadSection names .network (applyUpdates w1 (sched .network)).1 with
    | none => simp [h2] at h
    | some r2 =>
    obtain ⟨n, w2⟩ := r2
    simp only [h2] at h
    obtain ⟨v2, hv2, hk2, hc2, hw2, hh2, hs2, he2⟩ :=
      stageI names .network (sched .network) w1 _ w2 n hw1 hh1 hs1 h2
    rw [← applyUpdates_append] at hv2 hh2 hs2
    cases h3 : loadSection names .observability (applyUpdates w2 (sched .observability)).1 with
    | none => simp [h3] at h
    | some r3 =>
    obtain ⟨o, w3⟩ := r3
    simp only [h3] at h
    obtain ⟨v3, hv3, hk3, hc3, hw3, hh3, hs3, he3⟩ :=
      stageI names .observability (sched .observability) w2 _ w3 o hw2 hh2 hs2 h3
    rw [← applyUpdates_append] at hv3 hh3 hs3
    cases h4 : loadSection names .logging (applyUpdates w3 (sched .logging)).1 with
    | none => simp [h4] at h
    | some r4 =>
    obtain ⟨l, w4⟩ := r4
    simp only [h4] at h
    obtain ⟨v4, hv4, hk4, hc4, hw4, hh4, hs4, he4⟩ :=
      stageI names .logging (sched .logging) w3 _ w4 l hw3 hh3 hs3 h4
    rw [← applyUpdates_append] at hv4 hh4 hs4
    cases h5 : loadSection names .tracing (applyUpdates w4 (sched .tracing)).1 with
    | none => simp [h5] at h
    | some r5 =>
    obtain ⟨t, w5⟩ := r5
    simp only [h5] at h
    obtain ⟨v5, hv5, hk5, hc5, hw5, hh5, hs5, he5⟩ :=
      stageI names .tracing (sched .tracing) w4 _ w5 t hw4 hh4 hs4 h5
    rw [← applyUpdates_append] at hv5 hh5 hs5
    cases h6 : loadSection names .autoscaler (applyUpdates w5 (sched .autoscaler)).1 with
    | none => simp [h6] at h
    | some r6 =>
    obtain ⟨a, w6⟩ := r6
    simp only [h6] at h
    obtain ⟨v6, hv6, hk6, hc6, hw6, hh6, hs6, he6⟩ :=
      stageI names .autoscaler (sched .autoscaler) w5 _ w6 a hw5 hh5 hs5 h6
    rw [← applyUpdates_append] at hv6 hh6 hs6
    have he7 := applyUpdates_Ext after w6
    have hs7 := applyUpdates_Sim after w6 _ hw6 hh6 hs6
    rw [← applyUpdates_append] at hs7
    have hw7 := applyUpdates_WF after w6 hw6
    simp only [alloc, Option.some.injEq, Prod.mk.injEq] at h
    obtain ⟨hc, hw'⟩ := h
    subst hc
    subst hw'
    refine ⟨?_, ?_⟩
    · intro k
      cases k
      · exact ⟨v1, observe_config _ _ .deployment d v1 rfl
          (he7 _ _ (he6 _ _ (he5 _ _ (he4 _ _ (he3 _ _ (he2 _ _ hc1)))))), hk1, hv1⟩
      · exact ⟨v2, observe_config _ _ .network n v2 rfl
          (he7 _ _ (he6 _ _ (he5 _ _ (he4 _ _ (he3 _ _ hc2))))), hk2, hv2⟩
      · exact ⟨v3, observe_config _ _ .observability o v3 rfl
          (he7 _ _ (he6 _ _ (he5 _ _ (he4 _ _ hc3)))), hk3, hv3⟩
      · exact ⟨v4, observe_config _ _ .logging l v4 rfl
          (he7 _ _ (he6 _ _ (he5 _ _ hc4))), hk4, hv4⟩
      · exact ⟨v5, observe_config _ _ .tracing t v5 rfl
          (he7 _ _ (he6 _ _ hc5)), hk5, hv5⟩
      · exact ⟨v6, observe_config _ _ .autoscaler a v6 rfl (he7 _ _ hc6), hk6, hv6⟩
    · intro name
      refine Eq.trans ?_ (hs7.2 name)
      exact stored_append (applyUpdates w6 after).1 _ [_] name rfl rfl hw7
  · intro k
    cases k
    · exact ⟨sched .network ++ (sched .observability ++ (sched .logging ++
        (sched .tracing ++ (sched .autoscaler ++ after)))),
        by simp [overlapping, completedBefore]⟩
    · exact ⟨sched .observability ++ (sched .logging ++
        (sched .tracing ++ (sched .autoscaler ++ after))),
        by simp [overlapping, completedBefore]⟩
    · exact ⟨sched .logging ++ (sched .tracing ++ (sched .autoscaler ++ after)),
        by simp [overlapping, completedBefore]⟩
    · exact ⟨sched .tracing ++ (sched .autoscaler ++ after),
        by simp [overlapping, completedBefore]⟩
    · exact ⟨sched .autoscaler ++ after, by simp [overlapping, completedBefore]⟩
    · exact ⟨after, rfl⟩
  · intro hd hreg hpop
    have hreg' : w.store.constructors = Map.ofList (constructorTable names p) := hreg
    obtain ⟨d, w1, h1, hw1, hh1, hs1, hr1, hp1⟩ :=
      stageI_ok names p hd .deployment (sched .deployment) w w hw hw (Sim_refl w) hreg' hpop
    obtain ⟨n, w2, h2, hw2, hh2, hs2, hr2, hp2⟩ :=
      stageI_ok names p hd .network (sched .network) w1 _ hw1 hh1 hs1 hr1 hp1
    obtain ⟨o, w3, h3, hw3, hh3, hs3, hr3, hp3⟩ :=
      stageI_ok names p hd .observability (sched .observability) w2 _ hw2 hh2 hs2 hr2 hp2
    obtain ⟨l, w4, h4, hw4, hh4, hs4, hr4, hp4⟩ :=
      stageI_ok names p hd .logging (sched .logging) w3 _ hw3 hh3 hs3 hr3 hp3
    obtain ⟨t, w5, h5, hw5, hh5, hs5, hr5, hp5⟩ :=
      stageI_ok names p hd .tracing (sched .tracing) w4 _ hw4 hh4 hs4 hr4 hp4
    obtain ⟨a, w6, h6, _⟩ :=
      stageI_ok names p hd .autoscaler (sched .autoscaler) w5 _ hw5 hh5 hs5 hr5 hp5
    have hsome : (LoadI names sched after w).isSome = true := by
      unfold LoadI
      simp only [h1, h2, h3, h4, h5, h6, Option.isSome_some]
    obtain ⟨r, hr⟩ := Option.isSome_iff_exists.mp hsome
    exact ⟨r.1, r.2, hr⟩

theorem LoadI_per_section_witness :
    WF demoWorld ∧
    ∃ c w', LoadI demoNames demoSched [] demoWorld = some (c, w') ∧
      observe w'.heap c .deployment = some (Obj.deployment "queue:v1") ∧
      observe w'.heap c .network = some (Obj.network "192.168.0.0/16") ∧
      stored w' "config-deployment" = some (Obj.deployment "queue:v2") := by
  have T := LoadI_per_section demoNames demoParsers [7] demoWorld demoSched [] demoWorld_WF
  have hpop : ∀ k, ∃ v, stored demoWorld (demoNames.of k) = some v ∧ v.kind = some k :=
    fun k => by cases k <;> exact ⟨_, rfl, rfl⟩
  obtain ⟨c, w', h⟩ := T.2.2.2 demoNames_distinct rfl hpop
  obtain ⟨hfield, hstore⟩ := T.1 c w' h
  refine ⟨demoWorld_WF, c, w', h, ?_, ?_, ?_⟩
  · obtain ⟨v, hobs, _, hst⟩ := hfield .deployment
    have hv : some (Obj.deployment "queue:v1") = some v := hst
    cases hv
    exact hobs
  · obtain ⟨v, hobs, _, hst⟩ := hfield .network
    have hv : some (Obj.network "192.168.0.0/16") = some v := hst
    cases hv
    exact hobs
  · exact (hstore "config-deployment").trans rfl

/-- C11: the names `Load` reads are exactly the keys of the constructor table of `NewStore`;
the six names being pairwise different, the parser registered under each name returns values
of the type `Load` asserts for that name; hence, on a store in which every section holds a
value produced by its registered parser, every type assertion of `Load` succeeds and `Load`
returns a `Config` whose six fields are set and show the stored values. -/
theorem registry_Load_consistent {S : SectionTypes} (names : Names) (p : Parsers S)
    (obs : List Nat) (w : World S) (hd : names.Distinct)
    (hreg : w.store.constructors = (NewStore names p obs).constructors)
    (hval : ∀ k, ∃ parse cm v, Map.get w.store.constructors (names.of k) = some parse ∧
      parse cm = .ok v ∧ stored w (names.of k) = some v) :
    (∀ name, name ∈ (loadTable names).map Prod.fst ↔
      name ∈ (constructorTable names p).map Prod.fst) ∧
    (∀ name, name ∈ (loadTable names).map Prod.fst ↔
      (Map.get (NewStore names p obs).constructors name).isSome = true) ∧
    (∀ e ∈ loadTable names, ∃ parse,
      Map.get (NewStore names p obs).constructors e.1 = some parse ∧
      ∀ cm v, parse cm = .ok v → v.kind = some e.2) ∧
    (∀ e ∈ loadTable names, (assertKind w.heap e.2 (UntypedLoad w e.1)).isSome = true) ∧
    ∃ c w', Load names w = some (c, w') ∧
      ∀ k, ∃ v, observe w'.heap c k = some v ∧ stored w (names.of k) = some v := by
  have hkey : ∀ k, ∃ v, stored w (names.of k) = some v ∧ v.kind = some k := by
    intro k
    obtain ⟨parse, cm, v, hp, hv, hs⟩ := hval k
    rw [hreg] at hp
    have hp' : Map.get (Map.ofList (constructorTable names p)) (names.of k) = some parse := hp
    rw [registry_get names p hd k] at hp'
    cases hp'
    exact ⟨v, hs, run_kind p k cm v hv⟩
  choose f hf using hkey
  have ht : ∀ k, typed names w k = some (f k) := by
    intro k
    unfold typed
    rw [(hf k).1]
    simp [(hf k).2]
  refine ⟨loadTable_keys names p, ?_, ?_, ?_, ?_⟩
  · intro name
    rw [loadTable_keys names p name]
    exact (registry_keys names p name).symm
  · intro e he
    rw [mem_loadTable names e he]
    exact ⟨p.run e.2, registry_get names p hd e.2, fun cm v hv => run_kind p e.2 cm v hv⟩
  · intro e he
    rw [mem_loadTable names e he]
    obtain ⟨a, hu, ha, _⟩ := stored_some w _ _ (hf e.2).1
    simp [assertKind, hu, ha, (hf e.2).2]
  · refine ⟨(loadResult w (f .deployment) (f .network) (f .observability)
        (f .logging) (f .tracing) (f .autoscaler)).1,
      (loadResult w (f .deployment) (f .network) (f .observability)
        (f .logging) (f .tracing) (f .autoscaler)).2, Load_of_typed names w f ht, ?_⟩
    intro k
    exact ⟨f k, observe_loadResult w f k, (hf k).1⟩

theorem registry_Load_consistent_witness :
    demoNames.Distinct ∧
    demoWorld.store.constructors = (NewStore demoNames demoParsers [7]).constructors ∧
    (∀ name, name ∈ (loadTable demoNames).map Prod.fst ↔
      (Map.get (NewStore demoNames demoParsers [7]).constructors name).isSome = true) ∧
    ∃ c w', Load demoNames demoWorld = some (c, w') ∧
      ∀ k, ∃ v, observe w'.heap c k = some v ∧ stored demoWorld (demoNames.of k) = some v :=
  have hval : ∀ k, ∃ parse cm v,
      Map.get demoWorld.store.constructors (demoNames.of k) = some parse ∧
      parse cm = .ok v ∧ stored demoWorld (demoNames.of k) = some v := fun k =>
    match k with
    | .deployment =>
      ⟨_, ⟨"config-deployment", [("queueSidecarImage", "queue:v1")]⟩, _, rfl, rfl, rfl⟩
    | .network => ⟨_, ⟨"config-network", [("outboundIPRanges", "*")]⟩, _, rfl, rfl, rfl⟩
    | .observability => ⟨_, ⟨"config-observability", [("backend", "prometheus")]⟩, _, rfl, rfl, rfl⟩
    | .logging => ⟨_, ⟨"config-logging", [("level", "debug")]⟩, _, rfl, rfl, rfl⟩
    | .tracing => ⟨_, ⟨"config-tracing", [("enable", "false")]⟩, _, rfl, rfl, rfl⟩
    | .autoscaler => ⟨_, ⟨"config-autoscaler", [("max-scale-up-rate", "10")]⟩, _, rfl, rfl, rfl⟩
  have h := registry_Load_consistent demoNames demoParsers [7] demoWorld
    demoNames_distinct rfl hval
  ⟨demoNames_distinct, rfl, h.2.1, h.2.2.2.2⟩

end RevisionConfig

namespace ServiceTest

/-! ## Evaluation at the concrete instance -/

theorem demo_Check_not_ready :
    CheckServiceState demoClient "hello" (IsServiceNotReady demoAPI) =
      (none, [.Get "hello", .inState demoNotReady]) := by decide

theorem demo_Check_missing :
    CheckServiceState demoClient "absent" (IsServiceNotReady demoAPI) =
      (some (.external "not found"), [.Get "absent"]) := by decide

theorem demo_Check_not_in_state :
    CheckServiceState demoClient "hello" (fun _ => (false, none)) =
      (some (.notInDesiredState "hello" demoNotReady),
        [.Get "hello", .inState demoNotReady]) := by decide

theorem demo_Check_done_with_error :
    CheckServiceState demoClient "hello" (fun _ => (true, some (.external "boom"))) =
      (some (.external "boom"), [.Get "hello", .inState demoNotReady]) := by decide

theorem demo_IsServiceNotReady_stale :
    IsServiceNotReady demoAPI { demoNotReady with Generation := 3 } = (false, none) := by
  decide

/-! ## The properties of the helpers -/

/-- C12: `CheckServiceState` makes exactly one `Get`, for the given name and before anything
else, and calls the predicate at most once; it returns nil exactly when the `Get` succeeds
and the predicate returns `(true, nil)`; when the `Get` fails it returns that error and the
predicate is not called; when the predicate returns an error it returns that same error; when
the predicate returns `(false, nil)` it returns the non-nil "not in desired state" error. -/
theorem CheckServiceState_single_shot (client : ServingAlphaClients) (name : String)
    (inState : Service → Bool × Option Error) :
    (CheckServiceState client name inState).2.countP Call.isGet = 1 ∧
    (CheckServiceState client name inState).2.head? = some (.Get name) ∧
    (CheckServiceState client name inState).2.countP Call.isInState ≤ 1 ∧
    ((CheckServiceState client name inState).1 = none ↔
      ∃ s, client.Services.Get name = .ok s ∧ inState s = (true, none)) ∧
    (∀ err, client.Services.Get name = .error err →
      CheckServiceState client name inState = (some err, [.Get name])) ∧
    (∀ s done err, client.Services.Get name = .ok s → inState s = (done, some err) →
      CheckServiceState client name inState = (some err, [.Get name, .inState s])) ∧
    (∀ s, client.Services.Get name = .ok s → inState s = (false, none) →
      CheckServiceState client name inState =
        (some (.notInDesiredState name s), [.Get name, .inState s])) := by
  unfold CheckServiceState
  cases hg : client.Services.Get name with
  | error err =>
    simp [Call.isGet, Call.isInState]
  | ok s =>
    cases hi : inState s with
    | mk done e =>
      cases e with
      | some err =>
        simp only [hi]
        refine ⟨by simp [Call.isGet], rfl, by simp [Call.isInState], by simp [hi], ?_, ?_, ?_⟩
        · intro err' h
          cases h
        · intro s' done' err' h1 h2
          cases h1
          rw [hi] at h2
          cases h2
          rfl
        · intro s' h1 h2
          cases h1
          rw [hi] at h2
          cases h2
      | none =>
        cases done
        · simp only [hi]
          refine ⟨by simp [Call.isGet], rfl, by simp [Call.isInState], by simp [hi], ?_, ?_, ?_⟩
          · intro err' h
            cases h
          · intro s' done' err' h1 h2
            cases h1
            rw [hi] at h2
            cases h2
          · intro s' h1 _
            cases h1
            rfl
        · simp only [hi]
          refine ⟨by simp [Call.isGet], rfl, by simp [Call.isInState], by simp [hi], ?_, ?_, ?_⟩
          · intro err' h
            cases h
          · intro s' done' err' h1 h2
            cases h1
            rw [hi] at h2
            cases h2
          · intro s' h1 h2
            cases h1
            rw [hi] at h2
            cases h2

/-- C13: `IsServiceNotReady` always returns a nil error, and it returns true exactly when the
generation equals the observed generation and the Ready condition is present with status
False; a missing Ready condition, a Ready condition with status True or Unknown, or a
differing observed generation gives false. -/
theorem IsServiceNotReady_true_iff (api : API) (s : Service) :
    (IsServiceNotReady api s).2 = none ∧
    ((IsServiceNotReady api s).1 = true ↔
      s.Generation = s.Status.ObservedGeneration ∧
      ∃ c, api.GetCondition s.Status api.ServiceConditionReady = some c ∧
        c.Status = ConditionFalse) ∧
    (api.GetCondition s.Status api.ServiceConditionReady = none →
      (IsServiceNotReady api s).1 = false) ∧
    (∀ c, api.GetCondition s.Status api.ServiceConditionReady = some c →
      c.Status = ConditionTrue ∨ c.Status = ConditionUnknown →
      (IsServiceNotReady api s).1 = false) ∧
    (s.Generation ≠ s.Status.ObservedGeneration → (IsServiceNotReady api s).1 = false) := by
  unfold IsServiceNotReady
  cases hc : api.GetCondition s.Status api.ServiceConditionReady with
  | none => simp
  | some c =>
    refine ⟨rfl, ?_, ?_, ?_, ?_⟩
    · simp
    · intro h
      cases h
    · intro c' hc' hs
      simp only [Option.some.injEq] at hc'
      subst hc'
      have hne : c.Status ≠ ConditionFalse := by
        rcases hs with h | h <;> rw [h] <;> decide
      simp [hne]
    · intro hg
      simp [hg]

end ServiceTest
